import Mathlib

/-!
# Verification of the cppcheck `Library` configuration/query engine

Shallow embedding of the core of cppcheck's `Library` class
(`src/unnamed/part_002`, upstream `lib/library.cpp`): the configuration
loader, the allocation-group-id registry, the validation-expression
mini-grammar, and the read-only query facade.  Data structures mirror
`Library::LibraryData`; `std::map` is embedded as an association list
(kept in ascending key order where iteration order matters),
`std::set<std::string>` as a sorted duplicate-free list, C++ `int` as
`Int`, and fallible operations (`std::map::at`) as `Except`.
-/

namespace Cppcheck

/-- `Library::ErrorCode` (library.h):  the closed set of load results. -/
inductive ErrorCode where
  | OK
  | FILE_NOT_FOUND
  | BAD_XML
  | UNSUPPORTED_FORMAT
  | MISSING_ATTRIBUTE
  | BAD_ATTRIBUTE_VALUE
  | DUPLICATE_DEFINE
  | DUPLICATE_PLATFORM_TYPE
  | PLATFORM_TYPE_REDEFINED
  | UNKNOWN_ELEMENT
  deriving DecidableEq, Repr

/-- `Library::Error`: an error code plus the offending identifier as free text. -/
structure LoadResult where
  errorcode : ErrorCode
  reason : String := ""
  deriving DecidableEq, Repr

/-- `Library::LibraryData::FalseTrueMaybe` (the noreturn tri-state). -/
inductive FalseTrueMaybe where
  | False | True | Maybe
  deriving DecidableEq, Repr

/-- `Library::UseRetValType`. -/
inductive UseRetValType where
  | NONE | DEFAULT | ERROR_CODE
  deriving DecidableEq, Repr

/-- `Library::Container::Yield`. -/
inductive Yield where
  | AT_INDEX | ITEM | BUFFER | BUFFER_NT | START_ITERATOR | END_ITERATOR
  | ITERATOR | SIZE | EMPTY | NO_YIELD
  deriving DecidableEq, Repr

/-- `Library::Container::Action`. -/
inductive ContAction where
  | RESIZE | CLEAR | PUSH | POP | FIND | FIND_CONST | INSERT | ERASE
  | APPEND | CHANGE_CONTENT | CHANGE_INTERNAL | CHANGE | NO_ACTION
  deriving DecidableEq, Repr

/-! ## Association-list embedding of `std::map` / `std::unordered_map` -/

/-- Lookup in an association list: `map.find(k)` returning the mapped value. -/
def alistLookup (k : String) : List (String × α) → Option α
  | [] => none
  | (k', v) :: rest => if k' = k then some v else alistLookup k rest

/-- `map[k] = v`: replace the binding for `k`, or append a fresh one. -/
def alistInsert (k : String) (v : α) : List (String × α) → List (String × α)
  | [] => [(k, v)]
  | (k', v') :: rest =>
      if k' = k then (k', v) :: rest else (k', v') :: alistInsert k v rest

/-- Lexicographic order on strings (`std::string::operator<`), spelled
out over the character lists. -/
def strLtL : List Char → List Char → Bool
  | [], [] => false
  | [], _ :: _ => true
  | _ :: _, [] => false
  | c :: cs, d :: ds => if c < d then true else if d < c then false else strLtL cs ds

def strLt (a b : String) : Bool := strLtL a.toList b.toList

/-- Insert into a `std::set<std::string>` kept sorted without duplicates. -/
def setInsert (s : String) : List String → List String
  | [] => [s]
  | x :: rest =>
      if s = x then x :: rest
      else if strLt s x then s :: x :: rest
      else x :: setInsert s rest

/-- Join the (sorted) unknown-element set with `", "` as load(doc) does. -/
def joinComma : List String → String
  | [] => ""
  | [x] => x
  | x :: rest => x ++ ", " ++ joinComma rest

/-! ## The validation-expression compliance scanner

`Library::isCompliantValidationExpression` (part_002 lines 1488-1531)
scans the expression left to right with three segment-local flags
(`range`, `has_dot`, `has_E`) and one sticky `error` flag; a character
outside the grammar's alphabet returns `false` immediately.  The C
string's terminating `'\0'` is what one-character lookahead reads at the
end; we embed it as `nulChar`. -/

def nulChar : Char := Char.ofNat 0

/-- `std::isdigit` in the "C" locale on the grammar's alphabet. -/
def isdigitChar (c : Char) : Bool := '0' ≤ c && c ≤ '9'

/-- One-character lookahead `*(p+1)`; reads `'\0'` past the end. -/
def peekc (l : List Char) : Char := l.headD nulChar

/-- Characters inside `[0-9.:,+-Ee!]`; anything else makes the scanner
return `false` immediately. -/
def alphaOK (c : Char) : Bool :=
  isdigitChar c || c == '.' || c == ':' || c == ',' || c == '+' || c == '-' ||
    c == 'E' || c == 'e' || c == '!'

/-- The scanning loop of `isCompliantValidationExpression`: arguments are
the remaining input and the `error`, `range`, `has_dot`, `has_E` flags. -/
def complLoop : List Char → Bool → Bool → Bool → Bool → Bool
  | [], error, _, _, _ => !error
  | p :: rest, error, range, has_dot, has_E =>
      let nx := peekc rest
      if isdigitChar p then
        complLoop rest (error || nx == '-') range has_dot has_E
      else if p == ':' then
        complLoop rest (error || range || nx == '.') true false false
      else if p == '-' || p == '+' then
        complLoop rest (error || !isdigitChar nx) range has_dot has_E
      else if p == ',' then
        complLoop rest (error || nx == '.') false false false
      else if p == '.' then
        complLoop rest (error || has_dot || !isdigitChar nx) range true has_E
      else if p == 'E' || p == 'e' then
        complLoop rest (error || has_E) range has_dot true
      else if p == '!' then
        complLoop rest (error || !(nx == '-' || nx == '+' || isdigitChar nx))
          range has_dot has_E
      else
        false

/-- `isCompliantValidationExpression` on a character list: the `error`
flag starts as "first character is `'.'`". -/
def isCompliantL : List Char → Bool
  | [] => false
  | c :: rest => complLoop (c :: rest) (c == '.') false false false

/-- `Library::isCompliantValidationExpression(const char*)`: a null
pointer (`none`) or empty string is non-compliant. -/
def isCompliantValidationExpression : Option String → Bool
  | none => false
  | some s => isCompliantL s.toList

/-! ## Descriptor data model (`library.h` structures populated by the loader) -/

/-- `Library::ArgumentChecks` restricted to the fields the claims
exercise (`optional`, `variadic`, `formatstr`, the `valid` expression). -/
structure ArgumentChecks where
  optional : Bool := false
  variadic : Bool := false
  formatstr : Bool := false
  notbool : Bool := false
  notnull : Bool := false
  notuninit : Int := 0
  valid : String := ""
  deriving DecidableEq, Repr

/-- `Library::Function`.  `argumentChecks` embeds
`std::map<int, ArgumentChecks>`, whose iteration order is ascending key
order; the list is kept sorted by key. -/
structure Function where
  argumentChecks : List (Int × ArgumentChecks) := []
  use : Bool := false
  leakignore : Bool := false
  isconst : Bool := false
  ispure : Bool := false
  ignore : Bool := false
  formatstr : Bool := false
  formatstr_scan : Bool := false
  formatstr_secure : Bool := false
  useretval : UseRetValType := UseRetValType.NONE
  deriving DecidableEq, Repr

/-- `Library::AllocFunc` restricted to the fields the claims exercise:
the group id, the resource-argument position (`arg`, default `-1` for
alloc entries, `1` for dealloc entries) and the realloc pointer
position. -/
structure AllocFunc where
  groupId : Int := 0
  arg : Int := -1
  reallocArg : Int := 1
  deriving DecidableEq, Repr

/-- `Library::LibraryData`: the descriptor tables the claims touch.
`files` is `mFiles` (already-loaded absolute paths), `allocId` is the
ambient id counter `mAllocId`. -/
structure LibraryData where
  functions : List (String × Function) := []
  alloc : List (String × AllocFunc) := []
  dealloc : List (String × AllocFunc) := []
  realloc : List (String × AllocFunc) := []
  allocId : Int := 0
  files : List String := []
  defines : List String := []
  entrypoints : List String := []
  returnValue : List (String × String) := []
  returnValueContainer : List (String × Int) := []
  noreturnMap : List (String × FalseTrueMaybe) := []
  deriving DecidableEq, Repr

/-- The empty library (`Library::Library()` before any load). -/
def emptyLibrary : LibraryData := {}

/-! ## Call sites

The queries consume a call token together with the token/AST/symbol
infrastructure (external collaborators, consumed read-only).  A call
site is embedded by the facts that infrastructure delivers to the
`Library` code: the result of `Library::getFunctionName` (`none` when
the recursive resolution sets its `error` flag), the raw-token-stream
argument count `numberOfArgumentsWithoutAst`, the token predicates
tested by `Library::isNotLibraryFunction`, and — for the
`ftok->astParent() == "."` fallbacks — the receiver's container
yield/action as computed by `astContainerYield`/`astContainerAction`
(`none` when the parent is not a `.`). -/
structure CallSite where
  resolvedName : Option String := none
  callargs : Int := 0
  keywordOrStdType : Bool := false
  nonGlobalUserFunction : Bool := false
  isVarId : Bool := false
  attrNoreturn : Bool := false
  parentDot : Option (Yield × ContAction) := none
  deriving DecidableEq, Repr

/-- `Library::getFunctionName(const Token*)`: returns the empty string
when resolution fails. -/
def getFunctionNameOr (c : CallSite) : String := c.resolvedName.getD ""

/-! ## Arity matching (`Library::matchArguments`, lines 1445-1471) -/

/-- The loop of `matchArguments` over `argumentChecks` (ascending key
order), carrying `args` (max position so far, starting 0) and
`firstOptionalArg` (min optional position so far, `-1` = none): an entry
flagged `formatstr` or `variadic` returns `args <= callargs`
immediately; after the loop the call matches iff its count equals `args`
exactly or lies in `[firstOptionalArg - 1, args]`. -/
def matchArgumentsChecks : List (Int × ArgumentChecks) → Int → Int → Int → Bool
  | [], callargs, args, firstOptionalArg =>
      if firstOptionalArg < 0 then args == callargs
      else firstOptionalArg - 1 ≤ callargs && callargs ≤ args
  | (k, ac) :: rest, callargs, args, firstOptionalArg =>
      let args' := max k args
      let firstOptionalArg' :=
        if ac.optional && (firstOptionalArg == -1 || firstOptionalArg > k)
        then k else firstOptionalArg
      if ac.formatstr || ac.variadic then args' ≤ callargs
      else matchArgumentsChecks rest callargs args' firstOptionalArg'

/-- `Library::matchArguments(ftok, functionName)`. -/
def matchArguments (s : LibraryData) (c : CallSite) (functionName : String) : Bool :=
  if functionName = "" then false
  else
    match alistLookup functionName s.functions with
    | none => false
    | some f => matchArgumentsChecks f.argumentChecks c.callargs 0 (-1)

/-- `Library::isNotLibraryFunction` (lines 1429-1443): keywords,
built-in types, non-global user functions and variables are excluded; a
remaining token is a library function iff its resolved name matches a
descriptor's arity. -/
def isNotLibraryFunction (s : LibraryData) (c : CallSite) : Bool :=
  c.keywordOrStdType || c.nonGlobalUserFunction || c.isVarId ||
    !matchArguments s c (getFunctionNameOr c)

/-! ## Query facade -/

/-- `Library::getarg` (lines 1261-1273): the specific-position entry, or
the `-1` ("any position") fallback. -/
def getarg (s : LibraryData) (c : CallSite) (argnr : Int) : Option ArgumentChecks :=
  if isNotLibraryFunction s c then none
  else
    match alistLookup (getFunctionNameOr c) s.functions with
    | none => none
    | some f =>
        match f.argumentChecks.find? (fun a => a.1 == argnr) with
        | some a => some a.2
        | none =>
            match f.argumentChecks.find? (fun a => a.1 == -1) with
            | some a => some a.2
            | none => none

/-- `Library::getUseRetValType` (lines 1571-1589), with the container
member-call fallback on the receiver's yield/action. -/
def getUseRetValType (s : LibraryData) (c : CallSite) : UseRetValType :=
  if isNotLibraryFunction s c then
    match c.parentDot with
    | some (yield, action) =>
        if yield == Yield.START_ITERATOR || yield == Yield.END_ITERATOR ||
            yield == Yield.AT_INDEX || yield == Yield.SIZE ||
            yield == Yield.EMPTY || yield == Yield.BUFFER ||
            yield == Yield.BUFFER_NT ||
            ((yield == Yield.ITEM || yield == Yield.ITERATOR) &&
              action == ContAction.NO_ACTION)
        then UseRetValType.DEFAULT
        else UseRetValType.NONE
    | none => UseRetValType.NONE
  else
    match alistLookup (getFunctionNameOr c) s.functions with
    | some f => f.useretval
    | none => UseRetValType.NONE

/-- `Library::formatstr_argno` (lines 1544-1551):
`mFunctions.at(name)` throws `std::out_of_range` when the resolved name
has no descriptor — embedded as `Except.error`; otherwise the first
argument position flagged `formatstr` minus one, or `-1`. -/
def formatstr_argno (s : LibraryData) (c : CallSite) : Except String Int :=
  match alistLookup (getFunctionNameOr c) s.functions with
  | none => Except.error "std::out_of_range"
  | some f =>
      match f.argumentChecks.find? (fun a => a.2.formatstr) with
      | none => Except.ok (-1)
      | some a => Except.ok (a.1 - 1)

/-- `Library::formatstr_scan` (lines 1553-1556): also uses `map::at`. -/
def formatstr_scan (s : LibraryData) (c : CallSite) : Except String Bool :=
  match alistLookup (getFunctionNameOr c) s.functions with
  | none => Except.error "std::out_of_range"
  | some f => Except.ok f.formatstr_scan

/-- `Library::formatstr_secure` (lines 1558-1561): also uses `map::at`. -/
def formatstr_secure (s : LibraryData) (c : CallSite) : Except String Bool :=
  match alistLookup (getFunctionNameOr c) s.functions with
  | none => Except.error "std::out_of_range"
  | some f => Except.ok f.formatstr_secure

/-- `Library::returnValue` (lines 1591-1597). -/
def returnValue (s : LibraryData) (c : CallSite) : String :=
  if isNotLibraryFunction s c then ""
  else (alistLookup (getFunctionNameOr c) s.returnValue).getD ""

/-- `Library::returnValueContainer` (lines 1617-1623). -/
def returnValueContainer (s : LibraryData) (c : CallSite) : Int :=
  if isNotLibraryFunction s c then -1
  else (alistLookup (getFunctionNameOr c) s.returnValueContainer).getD (-1)

/-- `Library::isnoreturn` (lines 1724-1745): the `Maybe` tri-state is
conservatively treated as noreturn; both container-fallback branches
return `false`. -/
def isnoreturn (s : LibraryData) (c : CallSite) : Bool :=
  if c.attrNoreturn then true
  else if isNotLibraryFunction s c then false
  else
    match alistLookup (getFunctionNameOr c) s.noreturnMap with
    | none => false
    | some FalseTrueMaybe.Maybe => true
    | some FalseTrueMaybe.True => true
    | some FalseTrueMaybe.False => false

/-- Modelled from the spec: the static helper `getAllocDealloc`
(declared in `library.h`, which is absent from src/) — "resolve the call
to a descriptor": a plain find in the given alloc/dealloc/realloc
table. -/
def getAllocDealloc (table : List (String × AllocFunc)) (name : String) :
    Option AllocFunc :=
  alistLookup name table

/-- `Library::getAllocFuncInfo` (lines 1207-1215): the guard returns no
descriptor when the token is excluded from library lookup *and* the name
has a `<function>` descriptor (user data shadows). -/
def getAllocFuncInfo (s : LibraryData) (c : CallSite) : Option AllocFunc :=
  let funcname := getFunctionNameOr c
  if isNotLibraryFunction s c && (alistLookup funcname s.functions).isSome
  then none
  else getAllocDealloc s.alloc funcname

/-- `Library::getDeallocFuncInfo` (lines 1218-1226). -/
def getDeallocFuncInfo (s : LibraryData) (c : CallSite) : Option AllocFunc :=
  let funcname := getFunctionNameOr c
  if isNotLibraryFunction s c && (alistLookup funcname s.functions).isSome
  then none
  else getAllocDealloc s.dealloc funcname

/-- `Library::getReallocFuncInfo` (lines 1229-1237). -/
def getReallocFuncInfo (s : LibraryData) (c : CallSite) : Option AllocFunc :=
  let funcname := getFunctionNameOr c
  if isNotLibraryFunction s c && (alistLookup funcname s.functions).isSome
  then none
  else getAllocDealloc s.realloc funcname

/-- `Library::getAllocId` (lines 1240-1244): the group id only when the
descriptor's resource-argument position equals `arg`, else 0. -/
def getAllocId (s : LibraryData) (c : CallSite) (arg : Int) : Int :=
  match getAllocFuncInfo s c with
  | some af => if af.arg == arg then af.groupId else 0
  | none => 0

/-- `Library::getDeallocId` (lines 1247-1251). -/
def getDeallocId (s : LibraryData) (c : CallSite) (arg : Int) : Int :=
  match getDeallocFuncInfo s c with
  | some af => if af.arg == arg then af.groupId else 0
  | none => 0

/-- `Library::getReallocId` (lines 1254-1258). -/
def getReallocId (s : LibraryData) (c : CallSite) (arg : Int) : Int :=
  match getReallocFuncInfo s c with
  | some af => if af.arg == arg then af.groupId else 0
  | none => 0

/-- `Library::isentrypoint` (lines 2003-2006): `main`, or a name added
by an `<entrypoint>` element. -/
def isentrypoint (s : LibraryData) (func : String) : Bool :=
  func == "main" || s.entrypoints.contains func

/-! ## Validity-expression evaluation

`gettokenlistfromvalid` (lines 179-189) tokenizes `valid + ","` and then
folds every `"- %num%"` token pair into a single negative numeral.
`Library::isIntArgValid` (lines 1055-1075) walks the token list and
accepts on the first segment the value matches: an exact literal, an
inclusive range `lo:hi`, an open-low range `lo:,`, or — only at the
start of the list or right after a `","` — an open-high range `:hi`. -/

/-- Tokens of a tokenized validity expression. -/
inductive VTok where
  | num (n : Int)
  | colon
  | comma
  | bang
  | minus
  | plus
  | other (c : Char)
  deriving DecidableEq, Repr

/-- Single-character (non-digit) tokens of the grammar's alphabet. -/
def vtokOf (c : Char) : VTok :=
  if c = ':' then VTok.colon
  else if c = ',' then VTok.comma
  else if c = '!' then VTok.bang
  else if c = '-' then VTok.minus
  else if c = '+' then VTok.plus
  else VTok.other c

/-- Tokenizer: maximal digit runs become one numeral token (the
accumulator holds the numeral being read), every other character is a
single token. -/
def lexGo : List Char → Option Int → List VTok
  | [], some n => [VTok.num n]
  | [], none => []
  | c :: rest, acc =>
      if isdigitChar c then
        lexGo rest (some ((acc.getD 0) * 10 + ((c.toNat : Int) - 48)))
      else
        match acc with
        | some n => VTok.num n :: vtokOf c :: lexGo rest none
        | none => vtokOf c :: lexGo rest none

def lexValid (l : List Char) : List VTok := lexGo l none

/-- The `"- %num%"` folding loop of `gettokenlistfromvalid`. -/
def foldMinus : List VTok → List VTok
  | VTok.minus :: VTok.num n :: rest => VTok.num (-n) :: foldMinus rest
  | t :: rest => t :: foldMinus rest
  | [] => []

/-- The token list `isIntArgValid` walks for a stored expression
`valid`: tokenize `valid + ","`, then fold leading minus signs. -/
def validTokens (valid : String) : List VTok :=
  foldMinus (lexValid ((valid ++ ",").toList))

/-- The pattern `"%num% : %num%"` anchored after a numeral `n`:
inclusive-range membership. -/
def rangePat (argvalue n : Int) : List VTok → Bool
  | VTok.colon :: VTok.num m :: _ => n ≤ argvalue && argvalue ≤ m
  | _ => false

/-- The pattern `"%num% : ,"` anchored after a numeral `n`: open-high
range membership. -/
def openLowPat (argvalue n : Int) : List VTok → Bool
  | VTok.colon :: VTok.comma :: _ => n ≤ argvalue
  | _ => false

/-- The pattern `": %num%"` anchored after the `:` token: open-low
range membership. -/
def openHighPat (argvalue : Int) : List VTok → Bool
  | VTok.num m :: _ => argvalue ≤ m
  | _ => false

/-- The matching loop of `isIntArgValid`: one token at a time; `atSeg`
records whether there is no previous token or the previous token is a
`","` (the guard of the open-high pattern `": %num%"`); the next
iteration's `atSeg` is "this token is a `,`". -/
def validMatch (argvalue : Int) : List VTok → Bool → Bool
  | [], _ => false
  | VTok.num n :: rest, _ =>
      argvalue == n || rangePat argvalue n rest || openLowPat argvalue n rest ||
        validMatch argvalue rest false
  | VTok.colon :: rest, atSeg =>
      (atSeg && openHighPat argvalue rest) || validMatch argvalue rest false
  | VTok.comma :: rest, _ => validMatch argvalue rest true
  | _ :: rest, _ => validMatch argvalue rest false

/-- Evaluate a stored (integer) validity expression against a value. -/
def isIntArgValidExpr (valid : String) (argvalue : Int) : Bool :=
  validMatch argvalue (validTokens valid) true

/-- `Library::isIntArgValid`: no stored expression (or an empty one)
means unconstrained.  (For an expression containing `'.'` the source
delegates to the floating-point evaluator, outside this integer
embedding; the claims exercise integer expressions.) -/
def isIntArgValid (s : LibraryData) (c : CallSite) (argnr : Int)
    (argvalue : Int) : Bool :=
  match getarg s c argnr with
  | none => true
  | some ac => if ac.valid = "" then true else isIntArgValidExpr ac.valid argvalue

/-! ## The allocation-group-id registry and the document loader

`Library::load(doc)` (lines 313-797) dispatches per top-level element.
The embedding covers the elements the claims quantify over:
`memory`/`resource` blocks, `define`, `entrypoint`, and unrecognized
elements (at top level and nested inside a block).  Missing required
attributes are `Option.none` on the element. -/

/-- Modelled from the spec: `Library::ismemory` (declared in
`library.h`, absent from src/) — "ids are drawn from two disjoint
spaces" and the loader "mints a new id by probing successive positive
integers through a kind-specific membership test": memory ids are the
positive even integers. -/
def ismemory (id : Int) : Bool := 0 < id && id % 2 == 0

/-- Modelled from the spec: `Library::isresource` (`library.h`, absent
from src/) — resource ids are the positive odd integers, disjoint from
the memory ids. -/
def isresource (id : Int) : Bool := 0 < id && id % 2 == 1

/-- The probe `while (!ismemory(++mAllocId)) {}` as a closed form: the
first integer above `n` that is positive and even. -/
def nextMemoryId (n : Int) : Int :=
  if 0 < n + 1 then (if (n + 1) % 2 == 0 then n + 1 else n + 2) else 2

/-- The probe `while (!isresource(++mAllocId)) {}`: the first integer
above `n` that is positive and odd. -/
def nextResourceId (n : Int) : Int :=
  if 0 < n + 1 then (if (n + 1) % 2 == 1 then n + 1 else n + 2) else 1

/-- A `memory` block vs a `resource` block. -/
inductive BlockKind where
  | memory | resource
  deriving DecidableEq, Repr

/-- Children of a `<memory>`/`<resource>` element (lines 337-414):
`alloc`/`realloc`/`dealloc`/`use` with their comma-split name lists and
parsed attributes, or an unrecognized child element. -/
inductive MemElem where
  | alloc (names : List String) (arg : Int)
  | realloc (names : List String) (arg : Int) (reallocArg : Int)
  | dealloc (names : List String) (arg : Int)
  | use (names : List String)
  | unknown (name : String)
  deriving DecidableEq, Repr

/-- First pass over the block (lines 336-350): scan `dealloc` children
in order; the first name already in the dealloc table contributes its
group id (the outer loop stops at the first nonzero id). -/
def findReuseId (dm : List (String × AllocFunc)) : List MemElem → Int
  | [] => 0
  | MemElem.dealloc names _ :: rest =>
      match names.findSome? (fun n => (alistLookup n dm).map AllocFunc.groupId) with
      | some gid => if gid ≠ 0 then gid else findReuseId dm rest
      | none => findReuseId dm rest
  | _ :: rest => findReuseId dm rest

/-- Insert one name list into an alloc/dealloc/realloc table. -/
def insertNames (names : List String) (af : AllocFunc)
    (table : List (String × AllocFunc)) : List (String × AllocFunc) :=
  names.foldl (fun t n => alistInsert n af t) table

/-- Set `mFunctions[n].use = true` for a `use` child. -/
def setUse (s : LibraryData) (n : String) : LibraryData :=
  let f := (alistLookup n s.functions).getD {}
  { s with functions := alistInsert n { f with use := true } s.functions }

/-- Second pass over the block (lines 361-414): commit each child with
the block's group id; unrecognized children are added to the
unknown-element set. -/
def applyMemElem (gid : Int) (st : LibraryData × List String) (e : MemElem) :
    LibraryData × List String :=
  match e with
  | MemElem.alloc names arg =>
      let af : AllocFunc := { groupId := gid, arg := arg }
      ({ st.1 with alloc := insertNames names af st.1.alloc }, st.2)
  | MemElem.realloc names arg rarg =>
      let af : AllocFunc := { groupId := gid, arg := arg, reallocArg := rarg }
      ({ st.1 with realloc := insertNames names af st.1.realloc }, st.2)
  | MemElem.dealloc names arg =>
      let af : AllocFunc := { groupId := gid, arg := arg }
      ({ st.1 with dealloc := insertNames names af st.1.dealloc }, st.2)
  | MemElem.use names => (names.foldl setUse st.1, st.2)
  | MemElem.unknown name => (st.1, setInsert name st.2)

/-- Ghost trace of mint events: which group ids were freshly minted for
`memory` blocks and which for `resource` blocks.  (Not part of
`LibraryData`; recorded only to state the disjointness invariant.) -/
structure MintTrace where
  mem : List Int := []
  res : List Int := []
  deriving DecidableEq, Repr

/-- Load one `memory`/`resource` block (lines 334-414), also recording
the mint event in the ghost trace: reuse a known dealloc name's id, or
probe `mAllocId` with the kind's membership test. -/
def loadBlockT (kind : BlockKind) (elems : List MemElem)
    (st : LibraryData × List String) (tr : MintTrace) :
    (LibraryData × List String) × MintTrace :=
  let reuse := findReuseId st.1.dealloc elems
  let gid :=
    if reuse ≠ 0 then reuse
    else
      match kind with
      | BlockKind.memory => nextMemoryId st.1.allocId
      | BlockKind.resource => nextResourceId st.1.allocId
  let s' := if reuse ≠ 0 then st.1 else { st.1 with allocId := gid }
  let tr' :=
    if reuse ≠ 0 then tr
    else
      match kind with
      | BlockKind.memory => { tr with mem := gid :: tr.mem }
      | BlockKind.resource => { tr with res := gid :: tr.res }
  (elems.foldl (applyMemElem gid) (s', st.2), tr')

/-- Load one block without the ghost trace. -/
def loadBlock (kind : BlockKind) (elems : List MemElem)
    (st : LibraryData × List String) : LibraryData × List String :=
  (loadBlockT kind elems st {}).1

/-- Top-level elements of a configuration document (the subset of the
`load(doc)` dispatch the claims quantify over).  Missing required
attributes are `none`. -/
inductive XElem where
  | memory (elems : List MemElem)
  | resource (elems : List MemElem)
  | define (name : Option String) (value : Option String)
  | entrypoint (name : Option String)
  | unknown (name : String)
  deriving DecidableEq, Repr

/-- Process one top-level element: `none` = continue, `some err` =
abort immediately (the state mutated so far is kept). -/
def loadElem (e : XElem) (st : LibraryData × List String) :
    Option LoadResult × (LibraryData × List String) :=
  match e with
  | XElem.memory elems => (none, loadBlock BlockKind.memory elems st)
  | XElem.resource elems => (none, loadBlock BlockKind.resource elems st)
  | XElem.define name value =>
      match name with
      | none => (some ⟨ErrorCode.MISSING_ATTRIBUTE, "name"⟩, st)
      | some n =>
          match value with
          | none => (some ⟨ErrorCode.MISSING_ATTRIBUTE, "value"⟩, st)
          | some v =>
              let entry := n ++ " " ++ v
              if st.1.defines.contains entry then
                (some ⟨ErrorCode.DUPLICATE_DEFINE, n⟩, st)
              else
                (none, ({ st.1 with defines := setInsert entry st.1.defines }, st.2))
  | XElem.entrypoint name =>
      match name with
      | none => (some ⟨ErrorCode.MISSING_ATTRIBUTE, "name"⟩, st)
      | some n =>
          if st.1.entrypoints.contains n then (none, st)
          else
            (none, ({ st.1 with entrypoints := setInsert n st.1.entrypoints }, st.2))
  | XElem.unknown name => (none, (st.1, setInsert name st.2))

/-- The element loop of `load(doc)` (lines 332-786): abort on the first
element error, otherwise thread the state through. -/
def loadElems : List XElem → LibraryData × List String →
    Option LoadResult × (LibraryData × List String)
  | [], st => (none, st)
  | e :: rest, st =>
      match loadElem e st with
      | (some err, st') => (some err, st')
      | (none, st') => loadElems rest st'

/-- A parsed document: the root element's name, its `format` attribute
(defaulted to 1 when absent), and its children. -/
structure XDoc where
  rootName : String := "def"
  format : Int := 1
  elems : List XElem := []
  deriving DecidableEq, Repr

/-- `Library::load(const XMLDocument&)` (lines 313-797): check the root
name and format version, run the element loop, and report the batched
unknown-element set at the end. -/
def loadDoc (d : XDoc) (s : LibraryData) : LoadResult × LibraryData :=
  if d.rootName ≠ "def" then (⟨ErrorCode.UNSUPPORTED_FORMAT, d.rootName⟩, s)
  else if d.format > 2 || d.format ≤ 0 then (⟨ErrorCode.UNSUPPORTED_FORMAT, ""⟩, s)
  else
    let r := loadElems d.elems (s, [])
    match r.1 with
    | some err => (err, r.2.1)
    | none =>
        if r.2.2 = [] then (⟨ErrorCode.OK, ""⟩, r.2.1)
        else (⟨ErrorCode.UNKNOWN_ELEMENT, joinComma r.2.2⟩, r.2.1)

/-- `Library::load(exename, path)` (lines 241-250) after the document
was located and parsed: re-loading an already-loaded resolved absolute
path is a no-op `Ok`; a first successful load records the path. -/
def loadFile (d : XDoc) (absolutePath : String) (s : LibraryData) :
    LoadResult × LibraryData :=
  if s.files.contains absolutePath then (⟨ErrorCode.OK, ""⟩, s)
  else
    let r := loadDoc d s
    if r.1.errorcode = ErrorCode.OK then
      (r.1, { r.2 with files := setInsert absolutePath r.2.files })
    else r

/-- Run a sequence of memory/resource blocks with the ghost mint trace
(the reachable states of the allocation-group registry). -/
def runBlocksT : List (BlockKind × List MemElem) →
    (LibraryData × List String) × MintTrace →
    (LibraryData × List String) × MintTrace
  | [], st => st
  | b :: rest, st => runBlocksT rest (loadBlockT b.1 b.2 st.1 st.2)

/-! ## Spec-side characterizations

These definitions transcribe the *specification's* wording (not the
source); they exist to be compared against the source-derived
definitions above. -/

/-- Spec-side, the claim's rule list for the compliance grammar,
verbatim: a position violates when its character is outside
`[0-9.:,+-Ee!]`, a digit is immediately followed by `-`, a `:` is
followed by `.` or repeats within a segment (no `,` in between), a `,`
is followed by `.`, an `E`/`e` repeats within a segment (no `:`/`,` in
between), or a `!` is not followed by a sign or a digit; a whole string
violates when it is empty, starts with `.`, or has a violating
position. -/
def claimedViolations (l : List Char) : Bool :=
  l.isEmpty || (l.headD nulChar == '.') ||
  (List.range l.length).any (fun i =>
    let c := l.getD i nulChar
    let nx := l.getD (i + 1) nulChar
    !alphaOK c ||
    (isdigitChar c && nx == '-') ||
    (c == ':' && nx == '.') ||
    (c == ',' && nx == '.') ||
    (c == '!' && !(nx == '-' || nx == '+' || isdigitChar nx)) ||
    (c == ':' && (List.range i).any (fun j =>
        l.getD j nulChar == ':' &&
        (List.range (i - j - 1)).all (fun k => l.getD (j + 1 + k) nulChar != ','))) ||
    ((c == 'E' || c == 'e') && (List.range i).any (fun j =>
        (l.getD j nulChar == 'E' || l.getD j nulChar == 'e') &&
        (List.range (i - j - 1)).all (fun k =>
          l.getD (j + 1 + k) nulChar != ',' && l.getD (j + 1 + k) nulChar != ':'))) ||
    (c == '.' && (List.range i).any (fun j =>
        l.getD j nulChar == '.' &&
        (List.range (i - j - 1)).all (fun k =>
          l.getD (j + 1 + k) nulChar != ',' && l.getD (j + 1 + k) nulChar != ':'))))

/-- Spec-side (amended): the positional rejection rules of the grammar,
as decompositions — the claim's list extended by the two rules it
omitted: a sign not immediately followed by a digit, and a `.` not
immediately followed by a digit. -/
def PosRules (l : List Char) : Prop :=
  (∃ a c t, l = a ++ c :: t ∧ alphaOK c = false) ∨
  (∃ a c t, l = a ++ c :: t ∧ isdigitChar c = true ∧ peekc t = '-') ∨
  (∃ a b t, l = a ++ ':' :: b ++ ':' :: t ∧ ',' ∉ b) ∨
  (∃ a t, l = a ++ ':' :: t ∧ peekc t = '.') ∨
  (∃ a t, l = a ++ ',' :: t ∧ peekc t = '.') ∨
  (∃ a b e1 e2 t, l = a ++ e1 :: b ++ e2 :: t ∧ (e1 = 'E' ∨ e1 = 'e') ∧
    (e2 = 'E' ∨ e2 = 'e') ∧ ':' ∉ b ∧ ',' ∉ b) ∨
  (∃ a t, l = a ++ '!' :: t ∧
    ¬(peekc t = '-' ∨ peekc t = '+' ∨ isdigitChar (peekc t) = true)) ∨
  (∃ a b t, l = a ++ '.' :: b ++ '.' :: t ∧ ':' ∉ b ∧ ',' ∉ b) ∨
  (∃ a c t, l = a ++ c :: t ∧ (c = '-' ∨ c = '+') ∧ isdigitChar (peekc t) = false) ∨
  (∃ a t, l = a ++ '.' :: t ∧ isdigitChar (peekc t) = false)

/-- Spec-side (amended): a string violates the grammar when it is empty,
starts with `.`, or some position triggers a rejection rule. -/
def SpecViolationsExt (l : List Char) : Prop :=
  l = [] ∨ (∃ t, l = '.' :: t) ∨ PosRules l

/-- Spec-side: the highest declared argument position (with the
loader's floor of 0 when no position is declared). -/
def maxDeclared (checks : List (Int × ArgumentChecks)) : Int :=
  checks.foldl (fun m x => max x.1 m) 0

/-- Spec-side: the declared positions flagged optional. -/
def optionalKeys (checks : List (Int × ArgumentChecks)) : List Int :=
  (checks.filter (fun x => x.2.optional)).map (fun x => x.1)

/-- Spec-side: the lowest optional position, when one exists. -/
def minOptionalKey (checks : List (Int × ArgumentChecks)) : Option Int :=
  match optionalKeys checks with
  | [] => none
  | k :: ks => some (ks.foldl min k)

/-- The `firstOptionalArg` update of one `matchArguments` loop
iteration. -/
def optStep (m : Int) (x : Int × ArgumentChecks) : Int :=
  if x.2.optional && (m == -1 || m > x.1) then x.1 else m

/-- Spec-side, the claim's arity rule, verbatim: any position flagged
format-string or variadic accepts any count ≥ the *highest declared*
position; otherwise exactly the highest declared position, or — when
some position is optional — any count in
`[lowestOptionalPosition - 1, highestDeclaredPosition]`. -/
def specArityClaim (checks : List (Int × ArgumentChecks)) (callargs : Int) : Bool :=
  if checks.any (fun x => x.2.formatstr || x.2.variadic) then
    maxDeclared checks ≤ callargs
  else
    match minOptionalKey checks with
    | none => callargs == maxDeclared checks
    | some mo => mo - 1 ≤ callargs && callargs ≤ maxDeclared checks

/-- `PosRules` seeded with incoming segment flags, for reasoning about
the scanner mid-string: an open `range` flag rejects at the next `:`
before any `,`; an open `has_dot` (`has_E`) flag rejects at the next `.`
(`E`/`e`) before any `:` or `,`. -/
def SeedRules (l : List Char) (r d e : Bool) : Prop :=
  PosRules l ∨
  (r = true ∧ ∃ a t, l = a ++ ':' :: t ∧ ',' ∉ a) ∨
  (d = true ∧ ∃ a t, l = a ++ '.' :: t ∧ ':' ∉ a ∧ ',' ∉ a) ∨
  (e = true ∧ ∃ a c t, l = a ++ c :: t ∧ (c = 'E' ∨ c = 'e') ∧ ':' ∉ a ∧ ',' ∉ a)

/-- All group ids stored in the three allocation tables satisfy `P`. -/
def mapsProp (P : Int → Prop) (s : LibraryData) : Prop :=
  (∀ x ∈ s.alloc, P x.2.groupId) ∧
  (∀ x ∈ s.dealloc, P x.2.groupId) ∧
  (∀ x ∈ s.realloc, P x.2.groupId)

/-- The registry invariant over the ghost trace: every minted memory id
passes `ismemory`, every minted resource id passes `isresource`, and
every group id stored in the alloc/dealloc/realloc tables was minted. -/
def TraceInv (st : (LibraryData × List String) × MintTrace) : Prop :=
  (∀ i ∈ st.2.mem, ismemory i = true) ∧
  (∀ i ∈ st.2.res, isresource i = true) ∧
  mapsProp (fun g => g ∈ st.2.mem ∨ g ∈ st.2.res) st.1.1

/-- The entrypoint names registered by a list of document elements. -/
def entrypointNames (elems : List XElem) : List String :=
  elems.filterMap (fun e =>
    match e with
    | XElem.entrypoint (some n) => some n
    | _ => none)

/-! ## Lemmas: the compliance scanner vs the rule list -/

theorem posRules_alpha {l : List Char} (a : List Char) (c : Char) (t : List Char)
    (hl : l = a ++ c :: t) (h : alphaOK c = false) : PosRules l :=
  Or.inl ⟨a, c, t, hl, h⟩

theorem posRules_digitDash {l : List Char} (a : List Char) (c : Char)
    (t : List Char) (hl : l = a ++ c :: t) (h1 : isdigitChar c = true)
    (h2 : peekc t = '-') : PosRules l :=
  Or.inr (Or.inl ⟨a, c, t, hl, h1, h2⟩)

theorem posRules_colonColon {l : List Char} (a b t : List Char)
    (hl : l = a ++ ':' :: b ++ ':' :: t) (h : ',' ∉ b) : PosRules l :=
  Or.inr (Or.inr (Or.inl ⟨a, b, t, hl, h⟩))

theorem posRules_colonDot {l : List Char} (a t : List Char)
    (hl : l = a ++ ':' :: t) (h : peekc t = '.') : PosRules l :=
  Or.inr (Or.inr (Or.inr (Or.inl ⟨a, t, hl, h⟩)))

theorem posRules_commaDot {l : List Char} (a t : List Char)
    (hl : l = a ++ ',' :: t) (h : peekc t = '.') : PosRules l :=
  Or.inr (Or.inr (Or.inr (Or.inr (Or.inl ⟨a, t, hl, h⟩))))

theorem posRules_doubleE {l : List Char} (a b : List Char) (e1 e2 : Char)
    (t : List Char) (hl : l = a ++ e1 :: b ++ e2 :: t)
    (h1 : e1 = 'E' ∨ e1 = 'e') (h2 : e2 = 'E' ∨ e2 = 'e')
    (h3 : ':' ∉ b) (h4 : ',' ∉ b) : PosRules l :=
  Or.inr (Or.inr (Or.inr (Or.inr (Or.inr (Or.inl ⟨a, b, e1, e2, t, hl, h1, h2, h3, h4⟩)))))

theorem posRules_bang {l : List Char} (a t : List Char)
    (hl : l = a ++ '!' :: t)
    (h : ¬(peekc t = '-' ∨ peekc t = '+' ∨ isdigitChar (peekc t) = true)) :
    PosRules l :=
  Or.inr (Or.inr (Or.inr (Or.inr (Or.inr (Or.inr (Or.inl ⟨a, t, hl, h⟩))))))

theorem posRules_doubleDot {l : List Char} (a b t : List Char)
    (hl : l = a ++ '.' :: b ++ '.' :: t) (h1 : ':' ∉ b) (h2 : ',' ∉ b) :
    PosRules l :=
  Or.inr (Or.inr (Or.inr (Or.inr (Or.inr (Or.inr (Or.inr (Or.inl ⟨a, b, t, hl, h1, h2⟩)))))))

theorem posRules_sign {l : List Char} (a : List Char) (c : Char) (t : List Char)
    (hl : l = a ++ c :: t) (h1 : c = '-' ∨ c = '+')
    (h2 : isdigitChar (peekc t) = false) : PosRules l :=
  Or.inr (Or.inr (Or.inr (Or.inr (Or.inr (Or.inr (Or.inr (Or.inr (Or.inl ⟨a, c, t, hl, h1, h2⟩))))))))

theorem posRules_dotNoDigit {l : List Char} (a t : List Char)
    (hl : l = a ++ '.' :: t) (h : isdigitChar (peekc t) = false) : PosRules l :=
  Or.inr (Or.inr (Or.inr (Or.inr (Or.inr (Or.inr (Or.inr (Or.inr (Or.inr ⟨a, t, hl, h⟩))))))))

theorem seedRules_pos {l : List Char} {r d e : Bool} (h : PosRules l) :
    SeedRules l r d e :=
  Or.inl h

theorem seedRules_range {l : List Char} {r d e : Bool} (hr : r = true)
    (a t : List Char) (hl : l = a ++ ':' :: t) (hna : ',' ∉ a) :
    SeedRules l r d e :=
  Or.inr (Or.inl ⟨hr, a, t, hl, hna⟩)

theorem seedRules_dot {l : List Char} {r d e : Bool} (hd : d = true)
    (a t : List Char) (hl : l = a ++ '.' :: t) (h1 : ':' ∉ a) (h2 : ',' ∉ a) :
    SeedRules l r d e :=
  Or.inr (Or.inr (Or.inl ⟨hd, a, t, hl, h1, h2⟩))

theorem seedRules_e {l : List Char} {r d e : Bool} (he : e = true)
    (a : List Char) (c : Char) (t : List Char) (hl : l = a ++ c :: t)
    (hc : c = 'E' ∨ c = 'e') (h1 : ':' ∉ a) (h2 : ',' ∉ a) :
    SeedRules l r d e :=
  Or.inr (Or.inr (Or.inr ⟨he, a, c, t, hl, hc, h1, h2⟩))

/-- Nothing in the empty string triggers a positional rule. -/
theorem posRules_nil : ¬ PosRules [] := by
  intro h
  rcases h with ⟨a, c, t, hl, _⟩ | ⟨a, c, t, hl, _, _⟩ | ⟨a, b, t, hl, _⟩ |
    ⟨a, t, hl, _⟩ | ⟨a, t, hl, _⟩ | ⟨a, b, e1, e2, t, hl, _, _, _, _⟩ |
    ⟨a, t, hl, _⟩ | ⟨a, b, t, hl, _, _⟩ | ⟨a, c, t, hl, _, _⟩ | ⟨a, t, hl, _⟩ <;>
    simp at hl

theorem seedRules_nil {r d e : Bool} : ¬ SeedRules [] r d e := by
  intro h
  rcases h with h | ⟨_, a, t, hl, _⟩ | ⟨_, a, t, hl, _, _⟩ | ⟨_, a, c, t, hl, _, _, _⟩
  · exact posRules_nil h
  all_goals
    exact absurd hl.symm (List.append_ne_nil_of_right_ne_nil a (List.cons_ne_nil _ _))

/-- A positional rule in a suffix is a positional rule of the whole. -/
theorem posRules_cons (p : Char) {rest : List Char} (h : PosRules rest) :
    PosRules (p :: rest) := by
  rcases h with ⟨a, c, t, hl, h1⟩ | ⟨a, c, t, hl, h1, h2⟩ | ⟨a, b, t, hl, h1⟩ |
    ⟨a, t, hl, h1⟩ | ⟨a, t, hl, h1⟩ | ⟨a, b, e1, e2, t, hl, h1, h2, h3, h4⟩ |
    ⟨a, t, hl, h1⟩ | ⟨a, b, t, hl, h1, h2⟩ | ⟨a, c, t, hl, h1, h2⟩ | ⟨a, t, hl, h1⟩
  · exact posRules_alpha (p :: a) c t (by rw [hl]; rfl) h1
  · exact posRules_digitDash (p :: a) c t (by rw [hl]; rfl) h1 h2
  · exact posRules_colonColon (p :: a) b t (by rw [hl]; rfl) h1
  · exact posRules_colonDot (p :: a) t (by rw [hl]; rfl) h1
  · exact posRules_commaDot (p :: a) t (by rw [hl]; rfl) h1
  · exact posRules_doubleE (p :: a) b e1 e2 t (by rw [hl]; rfl) h1 h2 h3 h4
  · exact posRules_bang (p :: a) t (by rw [hl]; rfl) h1
  · exact posRules_doubleDot (p :: a) b t (by rw [hl]; rfl) h1 h2
  · exact posRules_sign (p :: a) c t (by rw [hl]; rfl) h1 h2
  · exact posRules_dotNoDigit (p :: a) t (by rw [hl]; rfl) h1

/-- Once the sticky `error` flag is set the scanner can only answer
`false`. -/
theorem complLoop_err (l : List Char) : ∀ r d e : Bool,
    complLoop l true r d e = false := by
  induction l with
  | nil => intro r d e; rfl
  | cons p rest ih =>
      intro r d e
      simp only [complLoop, Bool.true_or]
      repeat' split
      all_goals first | rfl | exact ih _ _ _

theorem not_mem_tail {c x : Char} {a : List Char} (h : c ∉ x :: a) : c ∉ a :=
  fun hm => h (List.mem_cons_of_mem x hm)

theorem not_mem_cons_of {c p : Char} {a : List Char} (h1 : p ≠ c) (h2 : c ∉ a) :
    c ∉ p :: a :=
  fun hm => (List.mem_cons.mp hm).elim (fun he => h1 he.symm) h2

/-- Step of the seeded rule set at a digit: a digit only rejects when
`-` follows, and changes no segment flag. -/
theorem seed_digit (p : Char) (rest : List Char) (r d e : Bool)
    (hp : isdigitChar p = true) :
    SeedRules (p :: rest) r d e ↔ (peekc rest = '-' ∨ SeedRules rest r d e) := by
  constructor
  · intro h
    rcases h with hp0 | ⟨hr, a, t, hl, hna⟩ | ⟨hd, a, t, hl, hna1, hna2⟩ |
      ⟨he, a, c, t, hl, hc, hna1, hna2⟩
    · rcases hp0 with ⟨a, c, t, hl, h1⟩ | ⟨a, c, t, hl, h1, h2⟩ |
        ⟨a, b, t, hl, h1⟩ | ⟨a, t, hl, h1⟩ | ⟨a, t, hl, h1⟩ |
        ⟨a, b, e1, e2, t, hl, h1, h2, h3, h4⟩ | ⟨a, t, hl, h1⟩ |
        ⟨a, b, t, hl, h1, h2⟩ | ⟨a, c, t, hl, h1, h2⟩ | ⟨a, t, hl, h1⟩
      · cases a with
        | nil =>
            injection hl with hx hrest; subst hx
            simp [alphaOK, hp] at h1
        | cons x a' =>
            injection hl with hx hrest
            exact Or.inr (seedRules_pos (posRules_alpha a' c t hrest h1))
      · cases a with
        | nil =>
            injection hl with hx hrest
            exact Or.inl (by rw [hrest]; exact h2)
        | cons x a' =>
            injection hl with hx hrest
            exact Or.inr (seedRules_pos (posRules_digitDash a' c t hrest h1 h2))
      · cases a with
        | nil =>
            injection hl with hx hrest
            rw [hx] at hp; exact absurd hp (by decide)
        | cons x a' =>
            injection hl with hx hrest
            exact Or.inr (seedRules_pos (posRules_colonColon a' b t hrest h1))
      · cases a with
        | nil =>
            injection hl with hx hrest
            rw [hx] at hp; exact absurd hp (by decide)
        | cons x a' =>
            injection hl with hx hrest
            exact Or.inr (seedRules_pos (posRules_colonDot a' t hrest h1))
      · cases a with
        | nil =>
            injection hl with hx hrest
            rw [hx] at hp; exact absurd hp (by decide)
        | cons x a' =>
            injection hl with hx hrest
            exact Or.inr (seedRules_pos (posRules_commaDot a' t hrest h1))
      · cases a with
        | nil =>
            injection hl with hx hrest
            rcases h1 with h1 | h1 <;>
              (rw [h1] at hx; rw [hx] at hp; exact absurd hp (by decide))
        | cons x a' =>
            injection hl with hx hrest
            exact Or.inr
              (seedRules_pos (posRules_doubleE a' b e1 e2 t hrest h1 h2 h3 h4))
      · cases a with
        | nil =>
            injection hl with hx hrest
            rw [hx] at hp; exact absurd hp (by decide)
        | cons x a' =>
            injection hl with hx hrest
            exact Or.inr (seedRules_pos (posRules_bang a' t hrest h1))
      · cases a with
        | nil =>
            injection hl with hx hrest
            rw [hx] at hp; exact absurd hp (by decide)
        | cons x a' =>
            injection hl with hx hrest
            exact Or.inr (seedRules_pos (posRules_doubleDot a' b t hrest h1 h2))
      · cases a with
        | nil =>
            injection hl with hx hrest
            rcases h1 with h1 | h1 <;>
              (rw [h1] at hx; rw [hx] at hp; exact absurd hp (by decide))
        | cons x a' =>
            injection hl with hx hrest
            exact Or.inr (seedRules_pos (posRules_sign a' c t hrest h1 h2))
      · cases a with
        | nil =>
            injection hl with hx hrest
            rw [hx] at hp; exact absurd hp (by decide)
        | cons x a' =>
            injection hl with hx hrest
            exact Or.inr (seedRules_pos (posRules_dotNoDigit a' t hrest h1))
    · cases a with
      | nil =>
          injection hl with hx hrest
          rw [hx] at hp; exact absurd hp (by decide)
      | cons x a' =>
          injection hl with hx hrest
          exact Or.inr (seedRules_range hr a' t hrest (not_mem_tail hna))
    · cases a with
      | nil =>
          injection hl with hx hrest
          rw [hx] at hp; exact absurd hp (by decide)
      | cons x a' =>
          injection hl with hx hrest
          exact Or.inr
            (seedRules_dot hd a' t hrest (not_mem_tail hna1) (not_mem_tail hna2))
    · cases a with
      | nil =>
          injection hl with hx hrest
          rcases hc with hc | hc <;>
            (rw [hc] at hx; rw [hx] at hp; exact absurd hp (by decide))
      | cons x a' =>
          injection hl with hx hrest
          exact Or.inr
            (seedRules_e he a' c t hrest hc (not_mem_tail hna1) (not_mem_tail hna2))
  · intro h
    have hne1 : p ≠ ':' := fun hx => by rw [hx] at hp; exact absurd hp (by decide)
    have hne2 : p ≠ ',' := fun hx => by rw [hx] at hp; exact absurd hp (by decide)
    rcases h with h | h
    · exact seedRules_pos (posRules_digitDash [] p rest rfl hp h)
    · rcases h with hp0 | ⟨hr, a, t, hl, hna⟩ | ⟨hd, a, t, hl, h1, h2⟩ |
        ⟨he, a, c, t, hl, hc, h1, h2⟩
      · exact seedRules_pos (posRules_cons p hp0)
      · exact seedRules_range hr (p :: a) t (by rw [hl]; rfl)
          (not_mem_cons_of hne2 hna)
      · exact seedRules_dot hd (p :: a) t (by rw [hl]; rfl)
          (not_mem_cons_of hne1 h1) (not_mem_cons_of hne2 h2)
      · exact seedRules_e he (p :: a) c t (by rw [hl]; rfl) hc
          (not_mem_cons_of hne1 h1) (not_mem_cons_of hne2 h2)

/-- Step of the seeded rule set at a `:`: rejects on an open `range`
flag or a following `.`; resets all three segment flags (`range`
becomes open). -/
theorem seed_colon (rest : List Char) (r d e : Bool) :
    SeedRules (':' :: rest) r d e ↔
      (r = true ∨ peekc rest = '.' ∨ SeedRules rest true false false) := by
  constructor
  · intro h
    rcases h with hp0 | ⟨hr, a, t, hl, hna⟩ | ⟨hd, a, t, hl, hna1, hna2⟩ |
      ⟨he, a, c, t, hl, hc, hna1, hna2⟩
    · rcases hp0 with ⟨a, c, t, hl, h1⟩ | ⟨a, c, t, hl, h1, h2⟩ |
        ⟨a, b, t, hl, h1⟩ | ⟨a, t, hl, h1⟩ | ⟨a, t, hl, h1⟩ |
        ⟨a, b, e1, e2, t, hl, h1, h2, h3, h4⟩ | ⟨a, t, hl, h1⟩ |
        ⟨a, b, t, hl, h1, h2⟩ | ⟨a, c, t, hl, h1, h2⟩ | ⟨a, t, hl, h1⟩
      · cases a with
        | nil => injection hl with hx hrest; subst hx; exact absurd h1 (by decide)
        | cons x a' =>
            injection hl with hx hrest
            exact Or.inr (Or.inr (seedRules_pos (posRules_alpha a' c t hrest h1)))
      · cases a with
        | nil => injection hl with hx hrest; subst hx; exact absurd h1 (by decide)
        | cons x a' =>
            injection hl with hx hrest
            exact Or.inr
              (Or.inr (seedRules_pos (posRules_digitDash a' c t hrest h1 h2)))
      · cases a with
        | nil =>
            injection hl with hx hrest
            exact Or.inr (Or.inr (seedRules_range rfl b t hrest h1))
        | cons x a' =>
            injection hl with hx hrest
            exact Or.inr
              (Or.inr (seedRules_pos (posRules_colonColon a' b t hrest h1)))
      · cases a with
        | nil =>
            injection hl with hx hrest
            exact Or.inr (Or.inl (by rw [hrest]; exact h1))
        | cons x a' =>
            injection hl with hx hrest
            exact Or.inr (Or.inr (seedRules_pos (posRules_colonDot a' t hrest h1)))
      · cases a with
        | nil => injection hl with hx hrest; exact absurd hx (by decide)
        | cons x a' =>
            injection hl with hx hrest
            exact Or.inr (Or.inr (seedRules_pos (posRules_commaDot a' t hrest h1)))
      · cases a with
        | nil =>
            injection hl with hx hrest
            rcases h1 with h1 | h1 <;> (rw [h1] at hx; exact absurd hx (by decide))
        | cons x a' =>
            injection hl with hx hrest
            exact Or.inr (Or.inr
              (seedRules_pos (posRules_doubleE a' b e1 e2 t hrest h1 h2 h3 h4)))
      · cases a with
        | nil => injection hl with hx hrest; exact absurd hx (by decide)
        | cons x a' =>
            injection hl with hx hrest
            exact Or.inr (Or.inr (seedRules_pos (posRules_bang a' t hrest h1)))
      · cases a with
        | nil => injection hl with hx hrest; exact absurd hx (by decide)
        | cons x a' =>
            injection hl with hx hrest
            exact Or.inr
              (Or.inr (seedRules_pos (posRules_doubleDot a' b t hrest h1 h2)))
      · cases a with
        | nil =>
            injection hl with hx hrest
            rcases h1 with h1 | h1 <;> (rw [h1] at hx; exact absurd hx (by decide))
        | cons x a' =>
            injection hl with hx hrest
            exact Or.inr (Or.inr (seedRules_pos (posRules_sign a' c t hrest h1 h2)))
      · cases a with
        | nil => injection hl with hx hrest; exact absurd hx (by decide)
        | cons x a' =>
            injection hl with hx hrest
            exact Or.inr
              (Or.inr (seedRules_pos (posRules_dotNoDigit a' t hrest h1)))
    · cases a with
      | nil => exact Or.inl hr
      | cons x a' =>
          injection hl with hx hrest
          exact Or.inr
            (Or.inr (seedRules_range rfl a' t hrest (not_mem_tail hna)))
    · cases a with
      | nil => injection hl with hx hrest; exact absurd hx (by decide)
      | cons x a' =>
          injection hl with hx hrest
          exact absurd (by rw [← hx]; exact List.mem_cons_self ':' a') hna1
    · cases a with
      | nil =>
          injection hl with hx hrest
          rcases hc with hc | hc <;> (rw [hc] at hx; exact absurd hx (by decide))
      | cons x a' =>
          injection hl with hx hrest
          exact absurd (by rw [← hx]; exact List.mem_cons_self ':' a') hna1
  · intro h
    rcases h with h | h | h
    · exact seedRules_range h [] rest rfl (List.not_mem_nil ',')
    · exact seedRules_pos (posRules_colonDot [] rest rfl h)
    · rcases h with hp0 | ⟨hr, a, t, hl, hna⟩ | ⟨hd, a, t, hl, h1, h2⟩ |
        ⟨he, a, c, t, hl, hc, h1, h2⟩
      · exact seedRules_pos (posRules_cons ':' hp0)
      · exact seedRules_pos (posRules_colonColon [] a t (by rw [hl]; rfl) hna)
      · exact absurd hd (by decide)
      · exact absurd he (by decide)

/-- Step of the seeded rule set at a `,`: rejects on a following `.`;
closes the segment (all three flags reset). -/
theorem seed_comma (rest : List Char) (r d e : Bool) :
    SeedRules (',' :: rest) r d e ↔
      (peekc rest = '.' ∨ SeedRules rest false false false) := by
  constructor
  · intro h
    rcases h with hp0 | ⟨hr, a, t, hl, hna⟩ | ⟨hd, a, t, hl, hna1, hna2⟩ |
      ⟨he, a, c, t, hl, hc, hna1, hna2⟩
    · rcases hp0 with ⟨a, c, t, hl, h1⟩ | ⟨a, c, t, hl, h1, h2⟩ |
        ⟨a, b, t, hl, h1⟩ | ⟨a, t, hl, h1⟩ | ⟨a, t, hl, h1⟩ |
        ⟨a, b, e1, e2, t, hl, h1, h2, h3, h4⟩ | ⟨a, t, hl, h1⟩ |
        ⟨a, b, t, hl, h1, h2⟩ | ⟨a, c, t, hl, h1, h2⟩ | ⟨a, t, hl, h1⟩
      · cases a with
        | nil => injection hl with hx hrest; subst hx; exact absurd h1 (by decide)
        | cons x a' =>
            injection hl with hx hrest
            exact Or.inr (seedRules_pos (posRules_alpha a' c t hrest h1))
      · cases a with
        | nil => injection hl with hx hrest; subst hx; exact absurd h1 (by decide)
        | cons x a' =>
            injection hl with hx hrest
            exact Or.inr (seedRules_pos (posRules_digitDash a' c t hrest h1 h2))
      · cases a with
        | nil => injection hl with hx hrest; exact absurd hx (by decide)
        | cons x a' =>
            injection hl with hx hrest
            exact Or.inr (seedRules_pos (posRules_colonColon a' b t hrest h1))
      · cases a with
        | nil => injection hl with hx hrest; exact absurd hx (by decide)
        | cons x a' =>
            injection hl with hx hrest
            exact Or.inr (seedRules_pos (posRules_colonDot a' t hrest h1))
      · cases a with
        | nil =>
            injection hl with hx hrest
            exact Or.inl (by rw [hrest]; exact h1)
        | cons x a' =>
            injection hl with hx hrest
            exact Or.inr (seedRules_pos (posRules_commaDot a' t hrest h1))
      · cases a with
        | nil =>
            injection hl with hx hrest
            rcases h1 with h1 | h1 <;> (rw [h1] at hx; exact absurd hx (by decide))
        | cons x a' =>
            injection hl with hx hrest
            exact Or.inr
              (seedRules_pos (posRules_doubleE a' b e1 e2 t hrest h1 h2 h3 h4))
      · cases a with
        | nil => injection hl with hx hrest; exact absurd hx (by decide)
        | cons x a' =>
            injection hl with hx hrest
            exact Or.inr (seedRules_pos (posRules_bang a' t hrest h1))
      · cases a with
        | nil => injection hl with hx hrest; exact absurd hx (by decide)
        | cons x a' =>
            injection hl with hx hrest
            exact Or.inr (seedRules_pos (posRules_doubleDot a' b t hrest h1 h2))
      · cases a with
        | nil =>
            injection hl with hx hrest
            rcases h1 with h1 | h1 <;> (rw [h1] at hx; exact absurd hx (by decide))
        | cons x a' =>
            injection hl with hx hrest
            exact Or.inr (seedRules_pos (posRules_sign a' c t hrest h1 h2))
      · cases a with
        | nil => injection hl with hx hrest; exact absurd hx (by decide)
        | cons x a' =>
            injection hl with hx hrest
            exact Or.inr (seedRules_pos (posRules_dotNoDigit a' t hrest h1))
    · cases a with
      | nil => injection hl with hx hrest; exact absurd hx (by decide)
      | cons x a' =>
          injection hl with hx hrest
          exact absurd (by rw [← hx]; exact List.mem_cons_self ',' a') hna
    · cases a with
      | nil => injection hl with hx hrest; exact absurd hx (by decide)
      | cons x a' =>
          injection hl with hx hrest
          exact absurd (by rw [← hx]; exact List.mem_cons_self ',' a') hna2
    · cases a with
      | nil =>
          injection hl with hx hrest
          rcases hc with hc | hc <;> (rw [hc] at hx; exact absurd hx (by decide))
      | cons x a' =>
          injection hl with hx hrest
          exact absurd (by rw [← hx]; exact List.mem_cons_self ',' a') hna2
  · intro h
    rcases h with h | h
    · exact seedRules_pos (posRules_commaDot [] rest rfl h)
    · rcases h with hp0 | ⟨hr, a, t, hl, hna⟩ | ⟨hd, a, t, hl, h1, h2⟩ |
        ⟨he, a, c, t, hl, hc, h1, h2⟩
      · exact seedRules_pos (posRules_cons ',' hp0)
      · exact absurd hr (by decide)
      · exact absurd hd (by decide)
      · exact absurd he (by decide)

/-- Step of the seeded rule set at a sign: rejects unless a digit
follows; changes no segment flag. -/
theorem seed_sign (p : Char) (rest : List Char) (r d e : Bool)
    (hp : p = '-' ∨ p = '+') :
    SeedRules (p :: rest) r d e ↔
      (isdigitChar (peekc rest) = false ∨ SeedRules rest r d e) := by
  have hne1 : p ≠ ':' := by rcases hp with h | h <;> (rw [h]; decide)
  have hne2 : p ≠ ',' := by rcases hp with h | h <;> (rw [h]; decide)
  constructor
  · intro h
    rcases h with hp0 | ⟨hr, a, t, hl, hna⟩ | ⟨hd, a, t, hl, hna1, hna2⟩ |
      ⟨he, a, c, t, hl, hc, hna1, hna2⟩
    · rcases hp0 with ⟨a, c, t, hl, h1⟩ | ⟨a, c, t, hl, h1, h2⟩ |
        ⟨a, b, t, hl, h1⟩ | ⟨a, t, hl, h1⟩ | ⟨a, t, hl, h1⟩ |
        ⟨a, b, e1, e2, t, hl, h1, h2, h3, h4⟩ | ⟨a, t, hl, h1⟩ |
        ⟨a, b, t, hl, h1, h2⟩ | ⟨a, c, t, hl, h1, h2⟩ | ⟨a, t, hl, h1⟩
      · cases a with
        | nil =>
            injection hl with hx hrest; subst hx
            rcases hp with h | h <;> (rw [h] at h1; exact absurd h1 (by decide))
        | cons x a' =>
            injection hl with hx hrest
            exact Or.inr (seedRules_pos (posRules_alpha a' c t hrest h1))
      · cases a with
        | nil =>
            injection hl with hx hrest; subst hx
            rcases hp with h | h <;> (rw [h] at h1; exact absurd h1 (by decide))
        | cons x a' =>
            injection hl with hx hrest
            exact Or.inr (seedRules_pos (posRules_digitDash a' c t hrest h1 h2))
      · cases a with
        | nil => injection hl with hx hrest; exact absurd hx hne1
        | cons x a' =>
            injection hl with hx hrest
            exact Or.inr (seedRules_pos (posRules_colonColon a' b t hrest h1))
      · cases a with
        | nil => injection hl with hx hrest; exact absurd hx hne1
        | cons x a' =>
            injection hl with hx hrest
            exact Or.inr (seedRules_pos (posRules_colonDot a' t hrest h1))
      · cases a with
        | nil => injection hl with hx hrest; exact absurd hx hne2
        | cons x a' =>
            injection hl with hx hrest
            exact Or.inr (seedRules_pos (posRules_commaDot a' t hrest h1))
      · cases a with
        | nil =>
            injection hl with hx hrest
            rcases h1 with h1 | h1 <;> rcases hp with h | h <;>
              (rw [h1] at hx; rw [h] at hx; exact absurd hx (by decide))
        | cons x a' =>
            injection hl with hx hrest
            exact Or.inr
              (seedRules_pos (posRules_doubleE a' b e1 e2 t hrest h1 h2 h3 h4))
      · cases a with
        | nil =>
            injection hl with hx hrest
            rcases hp with h | h <;> (rw [h] at hx; exact absurd hx (by decide))
        | cons x a' =>
            injection hl with hx hrest
            exact Or.inr (seedRules_pos (posRules_bang a' t hrest h1))
      · cases a with
        | nil =>
            injection hl with hx hrest
            rcases hp with h | h <;> (rw [h] at hx; exact absurd hx (by decide))
        | cons x a' =>
            injection hl with hx hrest
            exact Or.inr (seedRules_pos (posRules_doubleDot a' b t hrest h1 h2))
      · cases a with
        | nil =>
            injection hl with hx hrest
            exact Or.inl (by rw [hrest]; exact h2)
        | cons x a' =>
            injection hl with hx hrest
            exact Or.inr (seedRules_pos (posRules_sign a' c t hrest h1 h2))
      · cases a with
        | nil =>
            injection hl with hx hrest
            rcases hp with h | h <;> (rw [h] at hx; exact absurd hx (by decide))
        | cons x a' =>
            injection hl with hx hrest
            exact Or.inr (seedRules_pos (posRules_dotNoDigit a' t hrest h1))
    · cases a with
      | nil => injection hl with hx hrest; exact absurd hx hne1
      | cons x a' =>
          injection hl with hx hrest
          exact Or.inr (seedRules_range hr a' t hrest (not_mem_tail hna))
    · cases a with
      | nil =>
          injection hl with hx hrest
          rcases hp with h | h <;> (rw [h] at hx; exact absurd hx (by decide))
      | cons x a' =>
          injection hl with hx hrest
          exact Or.inr
            (seedRules_dot hd a' t hrest (not_mem_tail hna1) (not_mem_tail hna2))
    · cases a with
      | nil =>
          injection hl with hx hrest
          rcases hc with hc | hc <;> rcases hp with h | h <;>
            (rw [hc] at hx; rw [h] at hx; exact absurd hx (by decide))
      | cons x a' =>
          injection hl with hx hrest
          exact Or.inr
            (seedRules_e he a' c t hrest hc (not_mem_tail hna1) (not_mem_tail hna2))
  · intro h
    rcases h with h | h
    · exact seedRules_pos (posRules_sign [] p rest rfl hp h)
    · rcases h with hp0 | ⟨hr, a, t, hl, hna⟩ | ⟨hd, a, t, hl, h1, h2⟩ |
        ⟨he, a, c, t, hl, hc, h1, h2⟩
      · exact seedRules_pos (posRules_cons p hp0)
      · exact seedRules_range hr (p :: a) t (by rw [hl]; rfl)
          (not_mem_cons_of hne2 hna)
      · exact seedRules_dot hd (p :: a) t (by rw [hl]; rfl)
          (not_mem_cons_of hne1 h1) (not_mem_cons_of hne2 h2)
      · exact seedRules_e he (p :: a) c t (by rw [hl]; rfl) hc
          (not_mem_cons_of hne1 h1) (not_mem_cons_of hne2 h2)

/-- Step of the seeded rule set at a `.`: rejects on an open `has_dot`
flag or a following non-digit; opens the `has_dot` flag. -/
theorem seed_dot (rest : List Char) (r d e : Bool) :
    SeedRules ('.' :: rest) r d e ↔
      (d = true ∨ isdigitChar (peekc rest) = false ∨ SeedRules rest r true e) := by
  constructor
  · intro h
    rcases h with hp0 | ⟨hr, a, t, hl, hna⟩ | ⟨hd, a, t, hl, hna1, hna2⟩ |
      ⟨he, a, c, t, hl, hc, hna1, hna2⟩
    · rcases hp0 with ⟨a, c, t, hl, h1⟩ | ⟨a, c, t, hl, h1, h2⟩ |
        ⟨a, b, t, hl, h1⟩ | ⟨a, t, hl, h1⟩ | ⟨a, t, hl, h1⟩ |
        ⟨a, b, e1, e2, t, hl, h1, h2, h3, h4⟩ | ⟨a, t, hl, h1⟩ |
        ⟨a, b, t, hl, h1, h2⟩ | ⟨a, c, t, hl, h1, h2⟩ | ⟨a, t, hl, h1⟩
      · cases a with
        | nil => injection hl with hx hrest; subst hx; exact absurd h1 (by decide)
        | cons x a' =>
            injection hl with hx hrest
            exact Or.inr (Or.inr (seedRules_pos (posRules_alpha a' c t hrest h1)))
      · cases a with
        | nil => injection hl with hx hrest; subst hx; exact absurd h1 (by decide)
        | cons x a' =>
            injection hl with hx hrest
            exact Or.inr
              (Or.inr (seedRules_pos (posRules_digitDash a' c t hrest h1 h2)))
      · cases a with
        | nil => injection hl with hx hrest; exact absurd hx (by decide)
        | cons x a' =>
            injection hl with hx hrest
            exact Or.inr
              (Or.inr (seedRules_pos (posRules_colonColon a' b t hrest h1)))
      · cases a with
        | nil => injection hl with hx hrest; exact absurd hx (by decide)
        | cons x a' =>
            injection hl with hx hrest
            exact Or.inr (Or.inr (seedRules_pos (posRules_colonDot a' t hrest h1)))
      · cases a with
        | nil => injection hl with hx hrest; exact absurd hx (by decide)
        | cons x a' =>
            injection hl with hx hrest
            exact Or.inr (Or.inr (seedRules_pos (posRules_commaDot a' t hrest h1)))
      · cases a with
        | nil =>
            injection hl with hx hrest
            rcases h1 with h1 | h1 <;> (rw [h1] at hx; exact absurd hx (by decide))
        | cons x a' =>
            injection hl with hx hrest
            exact Or.inr (Or.inr
              (seedRules_pos (posRules_doubleE a' b e1 e2 t hrest h1 h2 h3 h4)))
      · cases a with
        | nil => injection hl with hx hrest; exact absurd hx (by decide)
        | cons x a' =>
            injection hl with hx hrest
            exact Or.inr (Or.inr (seedRules_pos (posRules_bang a' t hrest h1)))
      · cases a with
        | nil =>
            injection hl with hx hrest
            exact Or.inr (Or.inr (seedRules_dot rfl b t hrest h1 h2))
        | cons x a' =>
            injection hl with hx hrest
            exact Or.inr
              (Or.inr (seedRules_pos (posRules_doubleDot a' b t hrest h1 h2)))
      · cases a with
        | nil =>
            injection hl with hx hrest
            rcases h1 with h1 | h1 <;> (rw [h1] at hx; exact absurd hx (by decide))
        | cons x a' =>
            injection hl with hx hrest
            exact Or.inr (Or.inr (seedRules_pos (posRules_sign a' c t hrest h1 h2)))
      · cases a with
        | nil =>
            injection hl with hx hrest
            exact Or.inr (Or.inl (by rw [hrest]; exact h1))
        | cons x a' =>
            injection hl with hx hrest
            exact Or.inr
              (Or.inr (seedRules_pos (posRules_dotNoDigit a' t hrest h1)))
    · cases a with
      | nil => injection hl with hx hrest; exact absurd hx (by decide)
      | cons x a' =>
          injection hl with hx hrest
          exact Or.inr
            (Or.inr (seedRules_range hr a' t hrest (not_mem_tail hna)))
    · exact Or.inl hd
    · cases a with
      | nil =>
          injection hl with hx hrest
          rcases hc with hc | hc <;> (rw [hc] at hx; exact absurd hx (by decide))
      | cons x a' =>
          injection hl with hx hrest
          exact Or.inr (Or.inr
            (seedRules_e he a' c t hrest hc (not_mem_tail hna1) (not_mem_tail hna2)))
  · intro h
    rcases h with h | h | h
    · exact seedRules_dot h [] rest rfl (List.not_mem_nil ':') (List.not_mem_nil ',')
    · exact seedRules_pos (posRules_dotNoDigit [] rest rfl h)
    · rcases h with hp0 | ⟨hr, a, t, hl, hna⟩ | ⟨hd, a, t, hl, h1, h2⟩ |
        ⟨he, a, c, t, hl, hc, h1, h2⟩
      · exact seedRules_pos (posRules_cons '.' hp0)
      · exact seedRules_range hr ('.' :: a) t (by rw [hl]; rfl)
          (not_mem_cons_of (by decide) hna)
      · exact seedRules_pos (posRules_doubleDot [] a t (by rw [hl]; rfl) h1 h2)
      · exact seedRules_e he ('.' :: a) c t (by rw [hl]; rfl) hc
          (not_mem_cons_of (by decide) h1) (not_mem_cons_of (by decide) h2)

/-- Step of the seeded rule set at an `E`/`e`: rejects on an open
`has_E` flag; opens the `has_E` flag. -/
theorem seed_E (p : Char) (rest : List Char) (r d e : Bool)
    (hp : p = 'E' ∨ p = 'e') :
    SeedRules (p :: rest) r d e ↔ (e = true ∨ SeedRules rest r d true) := by
  have hne1 : p ≠ ':' := by rcases hp with h | h <;> (rw [h]; decide)
  have hne2 : p ≠ ',' := by rcases hp with h | h <;> (rw [h]; decide)
  constructor
  · intro h
    rcases h with hp0 | ⟨hr, a, t, hl, hna⟩ | ⟨hd, a, t, hl, hna1, hna2⟩ |
      ⟨he, a, c, t, hl, hc, hna1, hna2⟩
    · rcases hp0 with ⟨a, c, t, hl, h1⟩ | ⟨a, c, t, hl, h1, h2⟩ |
        ⟨a, b, t, hl, h1⟩ | ⟨a, t, hl, h1⟩ | ⟨a, t, hl, h1⟩ |
        ⟨a, b, e1, e2, t, hl, h1, h2, h3, h4⟩ | ⟨a, t, hl, h1⟩ |
        ⟨a, b, t, hl, h1, h2⟩ | ⟨a, c, t, hl, h1, h2⟩ | ⟨a, t, hl, h1⟩
      · cases a with
        | nil =>
            injection hl with hx hrest; subst hx
            rcases hp with h | h <;> (rw [h] at h1; exact absurd h1 (by decide))
        | cons x a' =>
            injection hl with hx hrest
            exact Or.inr (seedRules_pos (posRules_alpha a' c t hrest h1))
      · cases a with
        | nil =>
            injection hl with hx hrest; subst hx
            rcases hp with h | h <;> (rw [h] at h1; exact absurd h1 (by decide))
        | cons x a' =>
            injection hl with hx hrest
            exact Or.inr (seedRules_pos (posRules_digitDash a' c t hrest h1 h2))
      · cases a with
        | nil => injection hl with hx hrest; exact absurd hx hne1
        | cons x a' =>
            injection hl with hx hrest
            exact Or.inr (seedRules_pos (posRules_colonColon a' b t hrest h1))
      · cases a with
        | nil => injection hl with hx hrest; exact absurd hx hne1
        | cons x a' =>
            injection hl with hx hrest
            exact Or.inr (seedRules_pos (posRules_colonDot a' t hrest h1))
      · cases a with
        | nil => injection hl with hx hrest; exact absurd hx hne2
        | cons x a' =>
            injection hl with hx hrest
            exact Or.inr (seedRules_pos (posRules_commaDot a' t hrest h1))
      · cases a with
        | nil =>
            injection hl with hx hrest
            exact Or.inr (seedRules_e rfl b e2 t hrest h2 h3 h4)
        | cons x a' =>
            injection hl with hx hrest
            exact Or.inr
              (seedRules_pos (posRules_doubleE a' b e1 e2 t hrest h1 h2 h3 h4))
      · cases a with
        | nil =>
            injection hl with hx hrest
            rcases hp with h | h <;> (rw [h] at hx; exact absurd hx (by decide))
        | cons x a' =>
            injection hl with hx hrest
            exact Or.inr (seedRules_pos (posRules_bang a' t hrest h1))
      · cases a with
        | nil =>
            injection hl with hx hrest
            rcases hp with h | h <;> (rw [h] at hx; exact absurd hx (by decide))
        | cons x a' =>
            injection hl with hx hrest
            exact Or.inr (seedRules_pos (posRules_doubleDot a' b t hrest h1 h2))
      · cases a with
        | nil =>
            injection hl with hx hrest
            rcases h1 with h1 | h1 <;> rcases hp with h | h <;>
              (rw [h1] at hx; rw [h] at hx; exact absurd hx (by decide))
        | cons x a' =>
            injection hl with hx hrest
            exact Or.inr (seedRules_pos (posRules_sign a' c t hrest h1 h2))
      · cases a with
        | nil =>
            injection hl with hx hrest
            rcases hp with h | h <;> (rw [h] at hx; exact absurd hx (by decide))
        | cons x a' =>
            injection hl with hx hrest
            exact Or.inr (seedRules_pos (posRules_dotNoDigit a' t hrest h1))
    · cases a with
      | nil => injection hl with hx hrest; exact absurd hx hne1
      | cons x a' =>
          injection hl with hx hrest
          exact Or.inr (seedRules_range hr a' t hrest (not_mem_tail hna))
    · cases a with
      | nil =>
          injection hl with hx hrest
          rcases hp with h | h <;> (rw [h] at hx; exact absurd hx (by decide))
      | cons x a' =>
          injection hl with hx hrest
          exact Or.inr
            (seedRules_dot hd a' t hrest (not_mem_tail hna1) (not_mem_tail hna2))
    · exact Or.inl he
  · intro h
    rcases h with h | h
    · exact seedRules_e h [] p rest rfl hp (List.not_mem_nil ':')
        (List.not_mem_nil ',')
    · rcases h with hp0 | ⟨hr, a, t, hl, hna⟩ | ⟨hd, a, t, hl, h1, h2⟩ |
        ⟨he, a, c, t, hl, hc, h1, h2⟩
      · exact seedRules_pos (posRules_cons p hp0)
      · exact seedRules_range hr (p :: a) t (by rw [hl]; rfl)
          (not_mem_cons_of hne2 hna)
      · exact seedRules_dot hd (p :: a) t (by rw [hl]; rfl)
          (not_mem_cons_of hne1 h1) (not_mem_cons_of hne2 h2)
      · exact seedRules_pos (posRules_doubleE [] a p c t (by rw [hl]; rfl) hp hc h1 h2)

/-- Step of the seeded rule set at a `!`: rejects unless a sign or a
digit follows; changes no segment flag. -/
theorem seed_bang (rest : List Char) (r d e : Bool) :
    SeedRules ('!' :: rest) r d e ↔
      (¬(peekc rest = '-' ∨ peekc rest = '+' ∨ isdigitChar (peekc rest) = true) ∨
        SeedRules rest r d e) := by
  constructor
  · intro h
    rcases h with hp0 | ⟨hr, a, t, hl, hna⟩ | ⟨hd, a, t, hl, hna1, hna2⟩ |
      ⟨he, a, c, t, hl, hc, hna1, hna2⟩
    · rcases hp0 with ⟨a, c, t, hl, h1⟩ | ⟨a, c, t, hl, h1, h2⟩ |
        ⟨a, b, t, hl, h1⟩ | ⟨a, t, hl, h1⟩ | ⟨a, t, hl, h1⟩ |
        ⟨a, b, e1, e2, t, hl, h1, h2, h3, h4⟩ | ⟨a, t, hl, h1⟩ |
        ⟨a, b, t, hl, h1, h2⟩ | ⟨a, c, t, hl, h1, h2⟩ | ⟨a, t, hl, h1⟩
      · cases a with
        | nil => injection hl with hx hrest; subst hx; exact absurd h1 (by decide)
        | cons x a' =>
            injection hl with hx hrest
            exact Or.inr (seedRules_pos (posRules_alpha a' c t hrest h1))
      · cases a with
        | nil => injection hl with hx hrest; subst hx; exact absurd h1 (by decide)
        | cons x a' =>
            injection hl with hx hrest
            exact Or.inr (seedRules_pos (posRules_digitDash a' c t hrest h1 h2))
      · cases a with
        | nil => injection hl with hx hrest; exact absurd hx (by decide)
        | cons x a' =>
            injection hl with hx hrest
            exact Or.inr (seedRules_pos (posRules_colonColon a' b t hrest h1))
      · cases a with
        | nil => injection hl with hx hrest; exact absurd hx (by decide)
        | cons x a' =>
            injection hl with hx hrest
            exact Or.inr (seedRules_pos (posRules_colonDot a' t hrest h1))
      · cases a with
        | nil => injection hl with hx hrest; exact absurd hx (by decide)
        | cons x a' =>
            injection hl with hx hrest
            exact Or.inr (seedRules_pos (posRules_commaDot a' t hrest h1))
      · cases a with
        | nil =>
            injection hl with hx hrest
            rcases h1 with h1 | h1 <;> (rw [h1] at hx; exact absurd hx (by decide))
        | cons x a' =>
            injection hl with hx hrest
            exact Or.inr
              (seedRules_pos (posRules_doubleE a' b e1 e2 t hrest h1 h2 h3 h4))
      · cases a with
        | nil =>
            injection hl with hx hrest
            exact Or.inl (by rw [hrest]; exact h1)
        | cons x a' =>
            injection hl with hx hrest
            exact Or.inr (seedRules_pos (posRules_bang a' t hrest h1))
      · cases a with
        | nil => injection hl with hx hrest; exact absurd hx (by decide)
        | cons x a' =>
            injection hl with hx hrest
            exact Or.inr (seedRules_pos (posRules_doubleDot a' b t hrest h1 h2))
      · cases a with
        | nil =>
            injection hl with hx hrest
            rcases h1 with h1 | h1 <;> (rw [h1] at hx; exact absurd hx (by decide))
        | cons x a' =>
            injection hl with hx hrest
            exact Or.inr (seedRules_pos (posRules_sign a' c t hrest h1 h2))
      · cases a with
        | nil => injection hl with hx hrest; exact absurd hx (by decide)
        | cons x a' =>
            injection hl with hx hrest
            exact Or.inr (seedRules_pos (posRules_dotNoDigit a' t hrest h1))
    · cases a with
      | nil => injection hl with hx hrest; exact absurd hx (by decide)
      | cons x a' =>
          injection hl with hx hrest
          exact Or.inr (seedRules_range hr a' t hrest (not_mem_tail hna))
    · cases a with
      | nil => injection hl with hx hrest; exact absurd hx (by decide)
      | cons x a' =>
          injection hl with hx hrest
          exact Or.inr
            (seedRules_dot hd a' t hrest (not_mem_tail hna1) (not_mem_tail hna2))
    · cases a with
      | nil =>
          injection hl with hx hrest
          rcases hc with hc | hc <;> (rw [hc] at hx; exact absurd hx (by decide))
      | cons x a' =>
          injection hl with hx hrest
          exact Or.inr
            (seedRules_e he a' c t hrest hc (not_mem_tail hna1) (not_mem_tail hna2))
  · intro h
    rcases h with h | h
    · exact seedRules_pos (posRules_bang [] rest rfl h)
    · rcases h with hp0 | ⟨hr, a, t, hl, hna⟩ | ⟨hd, a, t, hl, h1, h2⟩ |
        ⟨he, a, c, t, hl, hc, h1, h2⟩
      · exact seedRules_pos (posRules_cons '!' hp0)
      · exact seedRules_range hr ('!' :: a) t (by rw [hl]; rfl)
          (not_mem_cons_of (by decide) hna)
      · exact seedRules_dot hd ('!' :: a) t (by rw [hl]; rfl)
          (not_mem_cons_of (by decide) h1) (not_mem_cons_of (by decide) h2)
      · exact seedRules_e he ('!' :: a) c t (by rw [hl]; rfl) hc
          (not_mem_cons_of (by decide) h1) (not_mem_cons_of (by decide) h2)

/-- The scanner rejects from state `(err, r, d, e)` exactly when the
`error` flag is already set or the seeded rule set fires on the
remaining input. -/
theorem complLoop_false_iff (l : List Char) : ∀ err r d e : Bool,
    complLoop l err r d e = false ↔ (err = true ∨ SeedRules l r d e) := by
  induction l with
  | nil =>
      intro err r d e
      constructor
      · intro h
        cases err
        · simp [complLoop] at h
        · exact Or.inl rfl
      · rintro (h | h)
        · subst h; rfl
        · exact absurd h seedRules_nil
  | cons p rest ih =>
      intro err r d e
      cases hdig : isdigitChar p with
      | true =>
          have hloop : complLoop (p :: rest) err r d e
              = complLoop rest (err || (peekc rest == '-')) r d e := by
            simp [complLoop, hdig]
          rw [hloop, ih, seed_digit p rest r d e hdig]
          simp only [Bool.or_eq_true, beq_iff_eq]
          tauto
      | false =>
        cases hc : p == ':' with
        | true =>
            have hp : p = ':' := by simpa using hc
            subst hp
            have hloop : complLoop (':' :: rest) err r d e
                = complLoop rest (err || r || (peekc rest == '.')) true false false := by
              simp [complLoop, hdig]
            rw [hloop, ih, seed_colon rest r d e]
            simp only [Bool.or_eq_true, beq_iff_eq]
            tauto
        | false =>
          cases hsign : (p == '-' || p == '+') with
          | true =>
              have hp : p = '-' ∨ p = '+' := by
                simpa [Bool.or_eq_true, beq_iff_eq] using hsign
              have hloop : complLoop (p :: rest) err r d e
                  = complLoop rest (err || !isdigitChar (peekc rest)) r d e := by
                simp [complLoop, hdig, hc, hsign]
              rw [hloop, ih, seed_sign p rest r d e hp]
              simp only [Bool.or_eq_true, Bool.not_eq_true']
              tauto
          | false =>
            cases hcm : p == ',' with
            | true =>
                have hp : p = ',' := by simpa using hcm
                subst hp
                have hloop : complLoop (',' :: rest) err r d e
                    = complLoop rest (err || (peekc rest == '.')) false false false := by
                  simp [complLoop, hdig, hc, hsign]
                rw [hloop, ih, seed_comma rest r d e]
                simp only [Bool.or_eq_true, beq_iff_eq]
                tauto
            | false =>
              cases hd2 : p == '.' with
              | true =>
                  have hp : p = '.' := by simpa using hd2
                  subst hp
                  have hloop : complLoop ('.' :: rest) err r d e
                      = complLoop rest (err || d || !isdigitChar (peekc rest)) r true e := by
                    simp [complLoop, hdig, hc, hsign, hcm]
                  rw [hloop, ih, seed_dot rest r d e]
                  simp only [Bool.or_eq_true, Bool.not_eq_true']
                  tauto
              | false =>
                cases hE2 : (p == 'E' || p == 'e') with
                | true =>
                    have hp : p = 'E' ∨ p = 'e' := by
                      simpa [Bool.or_eq_true, beq_iff_eq] using hE2
                    have hloop : complLoop (p :: rest) err r d e
                        = complLoop rest (err || e) r d true := by
                      simp [complLoop, hdig, hc, hsign, hcm, hd2, hE2]
                    rw [hloop, ih, seed_E p rest r d e hp]
                    simp only [Bool.or_eq_true]
                    tauto
                | false =>
                  cases hb : p == '!' with
                  | true =>
                      have hp : p = '!' := by simpa using hb
                      subst hp
                      have hloop : complLoop ('!' :: rest) err r d e
                          = complLoop rest
                              (err || !(peekc rest == '-' || peekc rest == '+' ||
                                isdigitChar (peekc rest))) r d e := by
                        simp [complLoop, hdig, hc, hsign, hcm, hd2]
                      rw [hloop, ih, seed_bang rest r d e]
                      simp only [Bool.or_eq_true, Bool.not_eq_true',
                        Bool.or_eq_false_iff, beq_eq_false_iff_ne, not_or,
                        Bool.not_eq_true, beq_iff_eq]
                      tauto
                  | false =>
                      have hsign' := Bool.or_eq_false_iff.mp hsign
                      have hE2' := Bool.or_eq_false_iff.mp hE2
                      have hOK : alphaOK p = false := by
                        simp [alphaOK, hdig, hc, hcm, hd2, hb, hsign'.1,
                          hsign'.2, hE2'.1, hE2'.2]
                      have hloop : complLoop (p :: rest) err r d e = false := by
                        simp [complLoop, hdig, hc, hsign'.1, hsign'.2, hcm, hd2,
                          hE2'.1, hE2'.2, hb]
                      exact iff_of_true hloop
                        (Or.inr (seedRules_pos (posRules_alpha [] p rest rfl hOK)))

/-- The compliance scanner rejects exactly the strings on which the
(amended) rule set fires. -/
theorem isCompliantL_false_iff (l : List Char) :
    isCompliantL l = false ↔ SpecViolationsExt l := by
  cases l with
  | nil =>
      exact iff_of_true rfl (Or.inl rfl)
  | cons c rest =>
      rw [show isCompliantL (c :: rest)
          = complLoop (c :: rest) (c == '.') false false false from rfl]
      rw [complLoop_false_iff]
      constructor
      · rintro (h | h)
        · exact Or.inr (Or.inl ⟨rest, by rw [show c = '.' from by simpa using h]⟩)
        · rcases h with h | ⟨h0, _⟩ | ⟨h0, _⟩ | ⟨h0, _⟩
          · exact Or.inr (Or.inr h)
          all_goals exact absurd h0 (by decide)
      · rintro (h | ⟨t, ht⟩ | h)
        · exact absurd h (List.cons_ne_nil c rest)
        · injection ht with hx _
          exact Or.inl (by rw [hx]; rfl)
        · exact Or.inr (seedRules_pos h)

/-- C1 (counterexample): the claim says `isCompliantValidationExpression`
returns false *exactly when* its rule list is violated, but `"5."`
violates none of the claim's rules (transcribed in `claimedViolations`)
and is still rejected — the source also rejects a `.` (and a sign) not
immediately followed by a digit. -/
theorem compliance_grammar_claim_counterexample :
    isCompliantValidationExpression (some "5.") = false ∧
      claimedViolations ("5.".toList) = false := by
  constructor <;> decide

/-- C1 (amended): `isCompliantValidationExpression` rejects exactly the
null/empty strings, strings with a leading `.`, and strings on which the
claim's rule list fires once extended by the two omitted rules (a sign
not followed by a digit; a `.` not followed by a digit); in particular
`"1:5"` is compliant while the empty string, a leading `"."` and a
doubled `":"` are non-compliant. -/
theorem compliance_grammar_characterization :
    (∀ s : String,
      isCompliantValidationExpression (some s) = false ↔ SpecViolationsExt s.toList) ∧
    isCompliantValidationExpression none = false ∧
    isCompliantValidationExpression (some "1:5") = true ∧
    isCompliantValidationExpression (some "") = false ∧
    isCompliantValidationExpression (some ".5") = false ∧
    isCompliantValidationExpression (some "1::5") = false := by
  refine ⟨fun s => ?_, rfl, by decide, by decide, by decide, by decide⟩
  show isCompliantL s.toList = false ↔ SpecViolationsExt s.toList
  exact isCompliantL_false_iff s.toList

/-! ## Lemmas: arity matching -/

/-- The `matchArguments` loop with a format-string/variadic entry
present returns at the *first* such entry (ascending key order),
comparing the call count against the maximum position seen so far. -/
theorem matchArgs_flagged (callargs : Int) :
    ∀ (checks : List (Int × ArgumentChecks)) (args fOpt : Int)
      (x0 : Int × ArgumentChecks),
      List.Pairwise (fun x y => x.1 < y.1) checks →
      0 ≤ args →
      (∀ x ∈ checks, args ≤ max 0 x.1) →
      checks.find? (fun x => x.2.formatstr || x.2.variadic) = some x0 →
      matchArgumentsChecks checks callargs args fOpt = decide (max 0 x0.1 ≤ callargs) := by
  intro checks
  induction checks with
  | nil => intro args fOpt x0 _ _ _ hfind; simp [List.find?] at hfind
  | cons hd rest ih =>
      intro args fOpt x0 hp hnn hub hfind
      obtain ⟨k, ac⟩ := hd
      by_cases hflag : (ac.formatstr || ac.variadic) = true
      · simp only [List.find?, hflag] at hfind
        injection hfind with hx0
        subst hx0
        have hub0 : args ≤ max 0 k := hub (k, ac) (List.mem_cons_self _ _)
        have hmax : max k args = max 0 k :=
          le_antisymm (max_le (le_max_right 0 k) hub0)
            (max_le (le_trans hnn (le_max_right k args)) (le_max_left k args))
        simp [matchArgumentsChecks, hflag, hmax]
      · have hflag' : (ac.formatstr || ac.variadic) = false := by
          simpa using hflag
        simp only [List.find?, hflag'] at hfind
        have hstep : matchArgumentsChecks ((k, ac) :: rest) callargs args fOpt
            = matchArgumentsChecks rest callargs (max k args)
                (if ac.optional && (fOpt == -1 || fOpt > k) then k else fOpt) := by
          simp [matchArgumentsChecks, hflag']
        rw [hstep]
        obtain ⟨hrel, hp'⟩ := List.pairwise_cons.mp hp
        exact ih (max k args) _ x0 hp'
          (le_trans hnn (le_max_right k args))
          (fun x hx => max_le
            (le_trans (le_of_lt (hrel x hx)) (le_max_right 0 x.1))
            (hub x (List.mem_cons_of_mem _ hx)))
          hfind

/-- The `matchArguments` loop with no format-string/variadic entry runs
to the end, folding the maximum position and the minimum optional
position. -/
theorem matchArgs_noflag (callargs : Int) :
    ∀ (checks : List (Int × ArgumentChecks)) (args fOpt : Int),
      (∀ x ∈ checks, (x.2.formatstr || x.2.variadic) = false) →
      matchArgumentsChecks checks callargs args fOpt =
        (if checks.foldl optStep fOpt < 0 then
          checks.foldl (fun m x => max x.1 m) args == callargs
        else
          checks.foldl optStep fOpt - 1 ≤ callargs &&
            callargs ≤ checks.foldl (fun m x => max x.1 m) args) := by
  intro checks
  induction checks with
  | nil => intro args fOpt _; rfl
  | cons hd rest ih =>
      intro args fOpt hflag
      obtain ⟨k, ac⟩ := hd
      have hf : (ac.formatstr || ac.variadic) = false :=
        hflag (k, ac) (List.mem_cons_self _ _)
      have hstep : matchArgumentsChecks ((k, ac) :: rest) callargs args fOpt
          = matchArgumentsChecks rest callargs (max k args)
              (if ac.optional && (fOpt == -1 || fOpt > k) then k else fOpt) := by
        simp [matchArgumentsChecks, hf]
      rw [hstep, ih _ _ (fun x hx => hflag x (List.mem_cons_of_mem _ hx))]
      rfl

/-- `optStep` ignores non-optional entries. -/
theorem optStep_fold_none :
    ∀ (checks : List (Int × ArgumentChecks)) (fOpt : Int),
      (∀ x ∈ checks, x.2.optional = false) →
      checks.foldl optStep fOpt = fOpt := by
  intro checks
  induction checks with
  | nil => intro fOpt _; rfl
  | cons hd rest ih =>
      intro fOpt hopt
      have h0 : hd.2.optional = false := hopt hd (List.mem_cons_self _ _)
      have : optStep fOpt hd = fOpt := by simp [optStep, h0]
      rw [List.foldl_cons, this, ih _ (fun x hx => hopt x (List.mem_cons_of_mem _ hx))]

/-- From a nonnegative accumulator, `optStep` is min-tracking over the
optional positions (all assumed ≥ 0). -/
theorem optStep_fold_pos :
    ∀ (checks : List (Int × ArgumentChecks)) (m : Int),
      (∀ x ∈ checks, x.2.optional = true → 0 ≤ x.1) → 0 ≤ m →
      checks.foldl optStep m = (optionalKeys checks).foldl min m := by
  intro checks
  induction checks with
  | nil => intro m _ _; rfl
  | cons hd rest ih =>
      intro m hopt hm
      obtain ⟨k, ac⟩ := hd
      by_cases ho : ac.optional = true
      · have hk : 0 ≤ k := hopt (k, ac) (List.mem_cons_self _ _) ho
        have hne : (m == -1) = false := beq_eq_false_iff_ne.mpr (by omega)
        have hstep : optStep m (k, ac) = min m k := by
          simp only [optStep, ho, Bool.true_and, hne, Bool.false_or]
          by_cases hmk : m > k
          · rw [if_pos (by simpa using hmk), Int.min_def, if_neg (by omega)]
          · rw [if_neg (by simpa using hmk), Int.min_def, if_pos (by omega)]
        have hkeys : optionalKeys ((k, ac) :: rest) = k :: optionalKeys rest := by
          simp [optionalKeys, ho]
        rw [List.foldl_cons, hstep, hkeys, List.foldl_cons,
          ih (min m k) (fun x hx hxo => hopt x (List.mem_cons_of_mem _ hx) hxo)
            (le_min hm hk)]
      · have ho' : ac.optional = false := by simpa using ho
        have hstep : optStep m (k, ac) = m := by simp [optStep, ho']
        have hkeys : optionalKeys ((k, ac) :: rest) = optionalKeys rest := by
          simp [optionalKeys, ho']
        rw [List.foldl_cons, hstep, hkeys,
          ih m (fun x hx hxo => hopt x (List.mem_cons_of_mem _ hx) hxo) hm]

/-- From the `-1` sentinel, the `optStep` fold computes the minimum
optional position (when the optional positions are ≥ 0). -/
theorem optStep_fold_start :
    ∀ (checks : List (Int × ArgumentChecks)),
      (∀ x ∈ checks, x.2.optional = true → 0 ≤ x.1) →
      checks.foldl optStep (-1) =
        (match optionalKeys checks with
         | [] => -1
         | k :: ks => ks.foldl min k) := by
  intro checks
  induction checks with
  | nil => intro _; rfl
  | cons hd rest ih =>
      intro hopt
      obtain ⟨k, ac⟩ := hd
      by_cases ho : ac.optional = true
      · have hk : 0 ≤ k := hopt (k, ac) (List.mem_cons_self _ _) ho
        have hstep : optStep (-1) (k, ac) = k := by simp [optStep, ho]
        have hkeys : optionalKeys ((k, ac) :: rest) = k :: optionalKeys rest := by
          simp [optionalKeys, ho]
        rw [List.foldl_cons, hstep, hkeys,
          optStep_fold_pos rest k
            (fun x hx hxo => hopt x (List.mem_cons_of_mem _ hx) hxo) hk]
      · have ho' : ac.optional = false := by simpa using ho
        have hstep : optStep (-1) (k, ac) = -1 := by simp [optStep, ho']
        have hkeys : optionalKeys ((k, ac) :: rest) = optionalKeys rest := by
          simp [optionalKeys, ho']
        rw [List.foldl_cons, hstep, hkeys,
          ih (fun x hx hxo => hopt x (List.mem_cons_of_mem _ hx) hxo)]

theorem fold_min_nonneg :
    ∀ (ks : List Int) (k : Int), 0 ≤ k → (∀ j ∈ ks, 0 ≤ j) →
      0 ≤ ks.foldl min k := by
  intro ks
  induction ks with
  | nil => intro k hk _; exact hk
  | cons j rest ih =>
      intro k hk hjs
      rw [List.foldl_cons]
      exact ih (min k j) (le_min hk (hjs j (List.mem_cons_self _ _)))
        (fun i hi => hjs i (List.mem_cons_of_mem _ hi))

theorem optionalKeys_nonneg {checks : List (Int × ArgumentChecks)}
    (hopt : ∀ x ∈ checks, x.2.optional = true → 0 ≤ x.1) :
    ∀ j ∈ optionalKeys checks, 0 ≤ j := by
  intro j hj
  obtain ⟨x, hx, hxj⟩ := List.mem_map.mp hj
  obtain ⟨hxm, hxo⟩ := List.mem_filter.mp hx
  exact hxj ▸ hopt x hxm (by simpa using hxo)

/-- C3 (counterexample): the claim compares the call count against the
*highest declared* position whenever some position is flagged
format-string/variadic; on a descriptor with a format-string position 1
and a plain position 2, a call with 1 argument is accepted by the code
(`matchArguments` returns at the first flagged entry) but rejected by
the claim's rule (`specArityClaim`). -/
theorem matchArguments_claim_counterexample :
    matchArguments
        { functions :=
            [("f", { argumentChecks := [(1, { formatstr := true }), (2, {})] })] }
        { resolvedName := some "f", callargs := 1 } "f" = true ∧
      specArityClaim [(1, { formatstr := true }), (2, {})] 1 = false := by
  constructor <;> decide

/-- C3 (amended): with the descriptor's positions in ascending order,
a call is accepted when its count is ≥ `max 0 p` for `p` the *first*
(lowest) position flagged format-string or variadic — positions after
`p` are ignored; with no flagged position, the call must match the
highest declared position exactly, or lie in
`[lowestOptionalPosition - 1, highestDeclaredPosition]` when optional
positions (at nonnegative positions) exist; in particular a descriptor
with two non-optional positions {1,2} accepts exactly 2 arguments, and
accepts any count ≥ 2 when position 2 is variadic. -/
theorem matchArguments_amended :
    (∀ (checks : List (Int × ArgumentChecks)) (callargs : Int)
        (x0 : Int × ArgumentChecks),
        List.Pairwise (fun x y => x.1 < y.1) checks →
        checks.find? (fun x => x.2.formatstr || x.2.variadic) = some x0 →
        matchArgumentsChecks checks callargs 0 (-1)
          = decide (max 0 x0.1 ≤ callargs)) ∧
    (∀ (checks : List (Int × ArgumentChecks)) (callargs : Int),
        (∀ x ∈ checks, (x.2.formatstr || x.2.variadic) = false) →
        (∀ x ∈ checks, x.2.optional = false) →
        matchArgumentsChecks checks callargs 0 (-1)
          = (maxDeclared checks == callargs)) ∧
    (∀ (checks : List (Int × ArgumentChecks)) (callargs mo : Int),
        (∀ x ∈ checks, (x.2.formatstr || x.2.variadic) = false) →
        (∀ x ∈ checks, x.2.optional = true → 0 ≤ x.1) →
        minOptionalKey checks = some mo →
        matchArgumentsChecks checks callargs 0 (-1)
          = (decide (mo - 1 ≤ callargs) && decide (callargs ≤ maxDeclared checks))) ∧
    (∀ callargs : Int,
        matchArgumentsChecks [(1, ({} : ArgumentChecks)), (2, {})] callargs 0 (-1) = true
          ↔ callargs = 2) ∧
    (∀ callargs : Int,
        matchArgumentsChecks [(1, ({} : ArgumentChecks)), (2, { variadic := true })]
            callargs 0 (-1) = true
          ↔ 2 ≤ callargs) := by
  refine ⟨?_, ?_, ?_, ?_, ?_⟩
  · intro checks callargs x0 hp hfind
    exact matchArgs_flagged callargs checks 0 (-1) x0 hp le_rfl
      (fun x _ => le_max_left 0 x.1) hfind
  · intro checks callargs hflag hopt
    rw [matchArgs_noflag callargs checks 0 (-1) hflag, optStep_fold_none checks _ hopt]
    rw [if_pos (by omega)]
    rfl
  · intro checks callargs mo hflag hopt hmo
    rw [matchArgs_noflag callargs checks 0 (-1) hflag, optStep_fold_start checks hopt]
    revert hmo
    unfold minOptionalKey
    cases hkeys : optionalKeys checks with
    | nil => intro hmo; exact absurd hmo (by simp)
    | cons k ks =>
        intro hmo
        injection hmo with hmo
        have hk0 : 0 ≤ ks.foldl min k := by
          have hall := optionalKeys_nonneg hopt
          rw [hkeys] at hall
          exact fold_min_nonneg ks k (hall k (List.mem_cons_self _ _))
            (fun j hj => hall j (List.mem_cons_of_mem _ hj))
        rw [hmo] at hk0
        have hred : (match k :: ks with
            | [] => (-1 : Int)
            | k :: ks => List.foldl min k ks) = List.foldl min k ks := rfl
        rw [hred, hmo, if_neg (by omega)]
        rfl
  · intro callargs
    simp [matchArgumentsChecks, optStep]
    omega
  · intro callargs
    simp [matchArgumentsChecks, optStep]

/-- Witness for `matchArguments_amended` at concrete descriptors. -/
theorem matchArguments_amended_witness :
    (matchArgumentsChecks [((1 : Int), ({ formatstr := true } : ArgumentChecks)),
        (2, {})] 1 0 (-1)
      = decide (max 0 (1 : Int) ≤ (1 : Int))) ∧
    (matchArgumentsChecks [((1 : Int), ({} : ArgumentChecks)), (2, {})] 2 0 (-1)
      = (maxDeclared [((1 : Int), ({} : ArgumentChecks)), (2, {})] == 2)) ∧
    (matchArgumentsChecks [((1 : Int), ({ optional := true } : ArgumentChecks)),
        (2, {})] 0 0 (-1)
      = (decide ((1 : Int) - 1 ≤ (0 : Int)) &&
          decide ((0 : Int) ≤ maxDeclared
            [((1 : Int), ({ optional := true } : ArgumentChecks)), (2, {})]))) :=
  ⟨matchArguments_amended.1 _ 1 (1, { formatstr := true }) (by decide) rfl,
   matchArguments_amended.2.1 _ 2 (by decide) (by decide),
   matchArguments_amended.2.2.1 _ 0 1 (by decide) (by decide) rfl⟩

/-! ## C2: query-time degradation -/

/-- C2 (counterexample): `formatstr_argno` / `formatstr_scan` /
`formatstr_secure` call `mFunctions.at(name)`, which throws
`std::out_of_range` when the resolved name has no descriptor — on the
empty library and an unmatched call they fail instead of returning the
neutral value. -/
theorem query_neutrality_claim_counterexample :
    formatstr_argno emptyLibrary { resolvedName := some "f" }
        = Except.error "std::out_of_range" ∧
      formatstr_scan emptyLibrary { resolvedName := some "f" }
        = Except.error "std::out_of_range" ∧
      formatstr_secure emptyLibrary { resolvedName := some "f" }
        = Except.error "std::out_of_range" :=
  ⟨rfl, rfl, rfl⟩

/-- C2 (amended): when the call matches no descriptor in any table (and
no container member-call fallback applies), every query except the
`formatstr` trio returns its neutral "no constraint" value
(`NONE` / empty string / `-1` / `false` / `0`); the `formatstr` trio
instead fails with the embedded `map::at` out-of-range error. -/
theorem query_neutrality_amended (s : LibraryData) (c : CallSite)
    (h1 : alistLookup (getFunctionNameOr c) s.functions = none)
    (h2 : alistLookup (getFunctionNameOr c) s.alloc = none)
    (h3 : alistLookup (getFunctionNameOr c) s.dealloc = none)
    (h4 : alistLookup (getFunctionNameOr c) s.realloc = none)
    (h5 : alistLookup (getFunctionNameOr c) s.returnValue = none)
    (h6 : alistLookup (getFunctionNameOr c) s.returnValueContainer = none)
    (h7 : alistLookup (getFunctionNameOr c) s.noreturnMap = none)
    (h8 : c.attrNoreturn = false)
    (h9 : c.parentDot = none) :
    getUseRetValType s c = UseRetValType.NONE ∧
      returnValue s c = "" ∧
      returnValueContainer s c = -1 ∧
      isnoreturn s c = false ∧
      (∀ arg : Int, getAllocId s c arg = 0 ∧ getDeallocId s c arg = 0 ∧
        getReallocId s c arg = 0) ∧
      formatstr_argno s c = Except.error "std::out_of_range" ∧
      formatstr_scan s c = Except.error "std::out_of_range" ∧
      formatstr_secure s c = Except.error "std::out_of_range" := by
  have hm : matchArguments s c (getFunctionNameOr c) = false := by
    unfold matchArguments
    split
    · rfl
    · rw [h1]
  have hn : isNotLibraryFunction s c = true := by
    simp [isNotLibraryFunction, hm]
  refine ⟨?_, ?_, ?_, ?_, ?_, ?_, ?_, ?_⟩
  · simp [getUseRetValType, hn, h9]
  · simp [returnValue, hn]
  · simp [returnValueContainer, hn]
  · simp [isnoreturn, h8, hn]
  · intro arg
    refine ⟨?_, ?_, ?_⟩
    · simp [getAllocId, getAllocFuncInfo, getAllocDealloc, h1, h2]
    · simp [getDeallocId, getDeallocFuncInfo, getAllocDealloc, h1, h3]
    · simp [getReallocId, getReallocFuncInfo, getAllocDealloc, h1, h4]
  · simp [formatstr_argno, h1]
  · simp [formatstr_scan, h1]
  · simp [formatstr_secure, h1]

/-- Witness for `query_neutrality_amended` on the empty library. -/
theorem query_neutrality_amended_witness :
    getUseRetValType emptyLibrary { resolvedName := some "g" } = UseRetValType.NONE ∧
      returnValue emptyLibrary { resolvedName := some "g" } = "" ∧
      returnValueContainer emptyLibrary { resolvedName := some "g" } = -1 ∧
      isnoreturn emptyLibrary { resolvedName := some "g" } = false ∧
      (∀ arg : Int,
        getAllocId emptyLibrary { resolvedName := some "g" } arg = 0 ∧
        getDeallocId emptyLibrary { resolvedName := some "g" } arg = 0 ∧
        getReallocId emptyLibrary { resolvedName := some "g" } arg = 0) ∧
      formatstr_argno emptyLibrary { resolvedName := some "g" }
        = Except.error "std::out_of_range" ∧
      formatstr_scan emptyLibrary { resolvedName := some "g" }
        = Except.error "std::out_of_range" ∧
      formatstr_secure emptyLibrary { resolvedName := some "g" }
        = Except.error "std::out_of_range" :=
  query_neutrality_amended emptyLibrary { resolvedName := some "g" }
    rfl rfl rfl rfl rfl rfl rfl rfl rfl

/-! ## C4: the positional contract of the allocation-id queries -/

/-- C4: `getAllocId`/`getDeallocId`/`getReallocId` return the resolved
descriptor's group id only when its configured resource-argument
position equals the queried position and 0 otherwise; and for two
independently declared memory families A (`aAlloc`/`aFree`, resource at
position 1) and B (`bAlloc`/`bFree`), the alloc id of A at position 1
equals the dealloc id of A's dealloc entry, is nonzero, differs from
B's id, and is not attributed to position 2. -/
theorem alloc_id_positional_and_symmetry :
    (∀ (s : LibraryData) (c : CallSite) (p : Int) (af : AllocFunc),
        alistLookup (getFunctionNameOr c) s.functions = none →
        alistLookup (getFunctionNameOr c) s.alloc = some af →
        getAllocId s c p = (if af.arg == p then af.groupId else 0)) ∧
    (∀ (s : LibraryData) (c : CallSite) (p : Int) (af : AllocFunc),
        alistLookup (getFunctionNameOr c) s.functions = none →
        alistLookup (getFunctionNameOr c) s.dealloc = some af →
        getDeallocId s c p = (if af.arg == p then af.groupId else 0)) ∧
    (∀ (s : LibraryData) (c : CallSite) (p : Int) (af : AllocFunc),
        alistLookup (getFunctionNameOr c) s.functions = none →
        alistLookup (getFunctionNameOr c) s.realloc = some af →
        getReallocId s c p = (if af.arg == p then af.groupId else 0)) ∧
    (getAllocId
        (loadBlock BlockKind.memory
          [MemElem.alloc ["bAlloc"] 1, MemElem.dealloc ["bFree"] 1]
          (loadBlock BlockKind.memory
            [MemElem.alloc ["aAlloc"] 1, MemElem.dealloc ["aFree"] 1]
            (emptyLibrary, []))).1
        { resolvedName := some "aAlloc" } 1
      = getDeallocId
          (loadBlock BlockKind.memory
            [MemElem.alloc ["bAlloc"] 1, MemElem.dealloc ["bFree"] 1]
            (loadBlock BlockKind.memory
              [MemElem.alloc ["aAlloc"] 1, MemElem.dealloc ["aFree"] 1]
              (emptyLibrary, []))).1
          { resolvedName := some "aFree" } 1 ∧
      getAllocId
        (loadBlock BlockKind.memory
          [MemElem.alloc ["bAlloc"] 1, MemElem.dealloc ["bFree"] 1]
          (loadBlock BlockKind.memory
            [MemElem.alloc ["aAlloc"] 1, MemElem.dealloc ["aFree"] 1]
            (emptyLibrary, []))).1
        { resolvedName := some "aAlloc" } 1 ≠ 0 ∧
      getAllocId
        (loadBlock BlockKind.memory
          [MemElem.alloc ["bAlloc"] 1, MemElem.dealloc ["bFree"] 1]
          (loadBlock BlockKind.memory
            [MemElem.alloc ["aAlloc"] 1, MemElem.dealloc ["aFree"] 1]
            (emptyLibrary, []))).1
        { resolvedName := some "aAlloc" } 1
        ≠ getAllocId
            (loadBlock BlockKind.memory
              [MemElem.alloc ["bAlloc"] 1, MemElem.dealloc ["bFree"] 1]
              (loadBlock BlockKind.memory
                [MemElem.alloc ["aAlloc"] 1, MemElem.dealloc ["aFree"] 1]
                (emptyLibrary, []))).1
            { resolvedName := some "bAlloc" } 1 ∧
      getAllocId
        (loadBlock BlockKind.memory
          [MemElem.alloc ["bAlloc"] 1, MemElem.dealloc ["bFree"] 1]
          (loadBlock BlockKind.memory
            [MemElem.alloc ["aAlloc"] 1, MemElem.dealloc ["aFree"] 1]
            (emptyLibrary, []))).1
        { resolvedName := some "aAlloc" } 2 = 0) := by
  refine ⟨?_, ?_, ?_, by decide⟩
  · intro s c p af h1 h2
    simp [getAllocId, getAllocFuncInfo, getAllocDealloc, h1, h2]
  · intro s c p af h1 h2
    simp [getDeallocId, getDeallocFuncInfo, getAllocDealloc, h1, h2]
  · intro s c p af h1 h2
    simp [getReallocId, getReallocFuncInfo, getAllocDealloc, h1, h2]

/-- Witness for `alloc_id_positional_and_symmetry` on a one-entry alloc
table. -/
theorem alloc_id_positional_witness :
    getAllocId { alloc := [("w", { groupId := 7, arg := 2 })] }
        { resolvedName := some "w" } 1
      = (if ((2 : Int) == (1 : Int)) then (7 : Int) else 0) :=
  alloc_id_positional_and_symmetry.1
    { alloc := [("w", { groupId := 7, arg := 2 })] }
    { resolvedName := some "w" } 1 { groupId := 7, arg := 2 } rfl rfl

/-! ## Lemmas: sorted-set insertion -/

theorem setInsert_mem (y x : String) :
    ∀ l : List String, y ∈ setInsert x l ↔ (y = x ∨ y ∈ l) := by
  intro l
  induction l with
  | nil => simp [setInsert]
  | cons z rest ih =>
      by_cases h1 : x = z
      · subst h1
        simp [setInsert]
      · by_cases h2 : strLt x z = true
        · simp [setInsert, h1, h2]
        · simp only [setInsert, if_neg h1, if_neg h2, List.mem_cons, ih]
          tauto

theorem setInsert_contains (x : String) (l : List String) :
    (setInsert x l).contains x = true :=
  List.elem_eq_true_of_mem ((setInsert_mem x x l).mpr (Or.inl rfl))

/-! ## C6: idempotent load of a resolved absolute path -/

/-- Re-loading an already-recorded absolute path is an `Ok` no-op. -/
theorem loadFile_contained (d : XDoc) (path : String) (s : LibraryData)
    (h : s.files.contains path = true) :
    loadFile d path s = (⟨ErrorCode.OK, ""⟩, s) := by
  unfold loadFile
  rw [if_pos h]

/-- A successful load records the resolved absolute path. -/
theorem loadFile_ok_contains (d : XDoc) (path : String) (s : LibraryData)
    (h : (loadFile d path s).1.errorcode = ErrorCode.OK) :
    (loadFile d path s).2.files.contains path = true := by
  unfold loadFile at h ⊢
  by_cases hmem : s.files.contains path = true
  · rw [if_pos hmem]
    exact hmem
  · rw [if_neg hmem] at h ⊢
    dsimp only at h ⊢
    by_cases herr : (loadDoc d s).1.errorcode = ErrorCode.OK
    · rw [if_pos herr]
      exact setInsert_contains path (loadDoc d s).2.files
    · rw [if_neg herr] at h
      exact absurd h herr

/-- C6: when the first load of a document from a resolved absolute path
returns `Ok`, loading the same path again returns `Ok` and leaves the
state — hence the size of every descriptor table — unchanged. -/
theorem load_idempotent (d : XDoc) (path : String) (s : LibraryData)
    (h : (loadFile d path s).1.errorcode = ErrorCode.OK) :
    loadFile d path (loadFile d path s).2
      = (⟨ErrorCode.OK, ""⟩, (loadFile d path s).2) :=
  loadFile_contained d path (loadFile d path s).2
    (loadFile_ok_contains d path s h)

/-- Witness for `load_idempotent` on a one-element document. -/
theorem load_idempotent_witness :
    loadFile { elems := [XElem.entrypoint (some "boot")] } "/cfg/a.cfg"
        (loadFile { elems := [XElem.entrypoint (some "boot")] } "/cfg/a.cfg"
          emptyLibrary).2
      = (⟨ErrorCode.OK, ""⟩,
          (loadFile { elems := [XElem.entrypoint (some "boot")] } "/cfg/a.cfg"
            emptyLibrary).2) :=
  load_idempotent { elems := [XElem.entrypoint (some "boot")] } "/cfg/a.cfg"
    emptyLibrary (by decide)

/-! ## C7: loading is not transactional -/

/-- C7: a document whose `memory` block loads successfully and whose
following `define` element aborts with `MissingAttribute("name")`
leaves the memory block's alloc/dealloc entries committed even though
the load result is not `Ok`. -/
theorem load_not_transactional :
    (loadDoc
        { elems := [XElem.memory [MemElem.alloc ["cAlloc"] 1,
            MemElem.dealloc ["cFree"] 1], XElem.define none none] }
        emptyLibrary).1
      = ⟨ErrorCode.MISSING_ATTRIBUTE, "name"⟩ ∧
    (loadDoc
        { elems := [XElem.memory [MemElem.alloc ["cAlloc"] 1,
            MemElem.dealloc ["cFree"] 1], XElem.define none none] }
        emptyLibrary).1.errorcode ≠ ErrorCode.OK ∧
    alistLookup "cAlloc"
        (loadDoc
          { elems := [XElem.memory [MemElem.alloc ["cAlloc"] 1,
              MemElem.dealloc ["cFree"] 1], XElem.define none none] }
          emptyLibrary).2.alloc
      = some { groupId := 2, arg := 1 } ∧
    alistLookup "cFree"
        (loadDoc
          { elems := [XElem.memory [MemElem.alloc ["cAlloc"] 1,
              MemElem.dealloc ["cFree"] 1], XElem.define none none] }
          emptyLibrary).2.dealloc
      = some { groupId := 2, arg := 1 } ∧
    alistLookup "cAlloc" emptyLibrary.alloc = none := by
  refine ⟨by decide, by decide, by decide, by decide, rfl⟩

/-! ## Lemmas: the allocation-group-id registry -/

theorem ismemory_nextMemoryId (n : Int) : ismemory (nextMemoryId n) = true := by
  unfold ismemory nextMemoryId
  by_cases h1 : 0 < n + 1
  · rw [if_pos h1]
    by_cases h2 : (n + 1) % 2 = 0
    · rw [if_pos (beq_iff_eq.mpr h2)]
      simp only [Bool.and_eq_true, decide_eq_true_eq, beq_iff_eq]
      omega
    · rw [if_neg (fun hb => h2 (beq_iff_eq.mp hb))]
      simp only [Bool.and_eq_true, decide_eq_true_eq, beq_iff_eq]
      omega
  · rw [if_neg h1]
    decide

theorem isresource_nextResourceId (n : Int) :
    isresource (nextResourceId n) = true := by
  unfold isresource nextResourceId
  by_cases h1 : 0 < n + 1
  · rw [if_pos h1]
    by_cases h2 : (n + 1) % 2 = 1
    · rw [if_pos (beq_iff_eq.mpr h2)]
      simp only [Bool.and_eq_true, decide_eq_true_eq, beq_iff_eq]
      omega
    · rw [if_neg (fun hb => h2 (beq_iff_eq.mp hb))]
      simp only [Bool.and_eq_true, decide_eq_true_eq, beq_iff_eq]
      omega
  · rw [if_neg h1]
    decide

/-- The memory-id space and the resource-id space are disjoint. -/
theorem ismemory_isresource_disjoint (i : Int) (h1 : ismemory i = true)
    (h2 : isresource i = true) : False := by
  simp only [ismemory, isresource, Bool.and_eq_true, decide_eq_true_eq,
    beq_iff_eq] at h1 h2
  omega

theorem ismemory_ne_zero (i : Int) (h : ismemory i = true) : i ≠ 0 := by
  simp only [ismemory, Bool.and_eq_true, decide_eq_true_eq, beq_iff_eq] at h
  omega

theorem isresource_ne_zero (i : Int) (h : isresource i = true) : i ≠ 0 := by
  simp only [isresource, Bool.and_eq_true, decide_eq_true_eq, beq_iff_eq] at h
  omega

theorem alistLookup_mem {α : Type} (k : String) (v : α) :
    ∀ l : List (String × α), alistLookup k l = some v → (k, v) ∈ l := by
  intro l
  induction l with
  | nil => intro h; simp [alistLookup] at h
  | cons x rest ih =>
      intro h
      obtain ⟨k', v'⟩ := x
      by_cases hk : k' = k
      · subst hk
        rw [alistLookup, if_pos rfl] at h
        injection h with h
        subst h
        exact List.mem_cons_self _ _
      · rw [alistLookup, if_neg hk] at h
        exact List.mem_cons_of_mem _ (ih h)

theorem alistInsert_forall {α : Type} (P : α → Prop) (k : String) (v : α)
    (hv : P v) : ∀ l : List (String × α), (∀ x ∈ l, P x.2) →
      ∀ x ∈ alistInsert k v l, P x.2 := by
  intro l
  induction l with
  | nil =>
      intro _ x hx
      rw [alistInsert] at hx
      rcases List.mem_singleton.mp hx with rfl
      exact hv
  | cons y rest ih =>
      intro hl x hx
      obtain ⟨k', v'⟩ := y
      by_cases hk : k' = k
      · rw [alistInsert, if_pos hk] at hx
        rcases List.mem_cons.mp hx with rfl | hx'
        · exact hv
        · exact hl _ (List.mem_cons_of_mem _ hx')
      · rw [alistInsert, if_neg hk] at hx
        rcases List.mem_cons.mp hx with rfl | hx'
        · exact hl _ (List.mem_cons_self _ _)
        · exact ih (fun z hz => hl z (List.mem_cons_of_mem _ hz)) x hx'

theorem insertNames_forall (P : AllocFunc → Prop) (af : AllocFunc) (hP : P af) :
    ∀ (names : List String) (t : List (String × AllocFunc)),
      (∀ x ∈ t, P x.2) → ∀ x ∈ insertNames names af t, P x.2 := by
  intro names
  induction names with
  | nil => intro t ht; exact ht
  | cons n rest ih =>
      intro t ht
      show ∀ x ∈ insertNames rest af (alistInsert n af t), P x.2
      exact ih _ (alistInsert_forall (fun v => P v) n af hP t ht)

theorem setUse_fold_carrier : ∀ (names : List String) (s : LibraryData),
    (names.foldl setUse s).alloc = s.alloc ∧
      (names.foldl setUse s).dealloc = s.dealloc ∧
      (names.foldl setUse s).realloc = s.realloc ∧
      (names.foldl setUse s).allocId = s.allocId ∧
      (names.foldl setUse s).entrypoints = s.entrypoints := by
  intro names
  induction names with
  | nil => intro s; exact ⟨rfl, rfl, rfl, rfl, rfl⟩
  | cons n rest ih =>
      intro s
      rw [List.foldl_cons]
      exact ih (setUse s n)

theorem applyMemElem_maps (P : Int → Prop) (gid : Int) (hgid : P gid) :
    ∀ (e : MemElem) (st : LibraryData × List String),
      mapsProp P st.1 → mapsProp P (applyMemElem gid st e).1 := by
  intro e st h
  obtain ⟨ha, hd, hr⟩ := h
  cases e with
  | alloc names arg =>
      exact ⟨insertNames_forall (fun af => P af.groupId) _ hgid names _ ha, hd, hr⟩
  | realloc names arg rarg =>
      exact ⟨ha, hd, insertNames_forall (fun af => P af.groupId) _ hgid names _ hr⟩
  | dealloc names arg =>
      exact ⟨ha, insertNames_forall (fun af => P af.groupId) _ hgid names _ hd, hr⟩
  | use names =>
      obtain ⟨e1, e2, e3, _, _⟩ := setUse_fold_carrier names st.1
      exact ⟨e1 ▸ ha, e2 ▸ hd, e3 ▸ hr⟩
  | unknown name => exact ⟨ha, hd, hr⟩

theorem applyFold_maps (P : Int → Prop) (gid : Int) (hgid : P gid) :
    ∀ (elems : List MemElem) (st : LibraryData × List String),
      mapsProp P st.1 → mapsProp P (elems.foldl (applyMemElem gid) st).1 := by
  intro elems
  induction elems with
  | nil => intro st h; exact h
  | cons e rest ih =>
      intro st h
      rw [List.foldl_cons]
      exact ih _ (applyMemElem_maps P gid hgid e st h)

theorem findReuseId_mem :
    ∀ (elems : List MemElem) (dm : List (String × AllocFunc)),
      findReuseId dm elems ≠ 0 →
      ∃ n af, alistLookup n dm = some af ∧ af.groupId = findReuseId dm elems := by
  intro elems dm
  induction elems with
  | nil => intro h; simp [findReuseId] at h
  | cons e rest ih =>
      intro h
      cases e with
      | dealloc names arg =>
          rw [findReuseId] at h ⊢
          cases hfs : names.findSome?
              (fun n => (alistLookup n dm).map AllocFunc.groupId) with
          | none =>
              rw [hfs] at h
              exact ih h
          | some gid =>
              rw [hfs] at h
              dsimp only at h ⊢
              by_cases hg : gid ≠ 0
              · rw [if_pos hg] at h ⊢
                obtain ⟨n, _, hf⟩ := List.exists_of_findSome?_eq_some hfs
                obtain ⟨af, haf, hgid⟩ := Option.map_eq_some'.mp hf
                exact ⟨n, af, haf, hgid⟩
              · rw [if_neg hg] at h ⊢
                exact ih h
      | alloc names arg => exact ih h
      | realloc names arg rarg => exact ih h
      | use names => exact ih h
      | unknown name => exact ih h

theorem applyFold_allocId (gid : Int) :
    ∀ (elems : List MemElem) (st : LibraryData × List String),
      (elems.foldl (applyMemElem gid) st).1.allocId = st.1.allocId := by
  intro elems
  induction elems with
  | nil => intro st; rfl
  | cons e rest ih =>
      intro st
      rw [List.foldl_cons, ih]
      cases e with
      | alloc names arg => rfl
      | realloc names arg rarg => rfl
      | dealloc names arg => rfl
      | use names => exact (setUse_fold_carrier names st.1).2.2.2.1
      | unknown name => rfl

theorem mapsProp_mono {P Q : Int → Prop} (hPQ : ∀ g, P g → Q g)
    {s : LibraryData} (h : mapsProp P s) : mapsProp Q s :=
  ⟨fun x hx => hPQ _ (h.1 x hx), fun x hx => hPQ _ (h.2.1 x hx),
    fun x hx => hPQ _ (h.2.2 x hx)⟩

theorem mapsProp_allocId (P : Int → Prop) (s : LibraryData) (v : Int)
    (h : mapsProp P s) : mapsProp P { s with allocId := v } :=
  h

/-- One memory/resource block preserves the registry invariant. -/
theorem loadBlockT_inv (kind : BlockKind) (elems : List MemElem)
    (st : LibraryData × List String) (tr : MintTrace)
    (h : TraceInv (st, tr)) : TraceInv (loadBlockT kind elems st tr) := by
  obtain ⟨h1, h2, h3⟩ := h
  unfold loadBlockT
  by_cases hr : findReuseId st.1.dealloc elems ≠ 0
  · simp only [if_pos hr]
    obtain ⟨n, af, haf, hgid⟩ := findReuseId_mem elems st.1.dealloc hr
    have hP : findReuseId st.1.dealloc elems ∈ tr.mem ∨
        findReuseId st.1.dealloc elems ∈ tr.res :=
      hgid ▸ h3.2.1 (n, af) (alistLookup_mem n af st.1.dealloc haf)
    exact ⟨h1, h2, applyFold_maps _ _ hP elems (st.1, st.2) h3⟩
  · simp only [if_neg hr]
    cases kind with
    | memory =>
        refine ⟨?_, h2, ?_⟩
        · intro i hi
          rcases List.mem_cons.mp hi with rfl | hi'
          · exact ismemory_nextMemoryId st.1.allocId
          · exact h1 i hi'
        · refine applyFold_maps _ _ (Or.inl (List.mem_cons_self _ _)) elems _ ?_
          exact mapsProp_allocId _ _ _ (mapsProp_mono
            (fun g hg => hg.elim (fun hm => Or.inl (List.mem_cons_of_mem _ hm)) Or.inr)
            h3)
    | resource =>
        refine ⟨h1, ?_, ?_⟩
        · intro i hi
          rcases List.mem_cons.mp hi with rfl | hi'
          · exact isresource_nextResourceId st.1.allocId
          · exact h2 i hi'
        · refine applyFold_maps _ _ (Or.inr (List.mem_cons_self _ _)) elems _ ?_
          exact mapsProp_allocId _ _ _ (mapsProp_mono
            (fun g hg => hg.elim Or.inl (fun hm => Or.inr (List.mem_cons_of_mem _ hm)))
            h3)

theorem runBlocksT_inv :
    ∀ (blocks : List (BlockKind × List MemElem))
      (st : (LibraryData × List String) × MintTrace),
      TraceInv st → TraceInv (runBlocksT blocks st) := by
  intro blocks
  induction blocks with
  | nil => intro st h; exact h
  | cons b rest ih =>
      intro st h
      exact ih _ (loadBlockT_inv b.1 b.2 st.1 st.2 h)

theorem traceInv_init : TraceInv ((emptyLibrary, []), {}) :=
  ⟨fun i hi => absurd hi (List.not_mem_nil i),
   fun i hi => absurd hi (List.not_mem_nil i),
   fun x hx => absurd hx (List.not_mem_nil x),
   fun x hx => absurd hx (List.not_mem_nil x),
   fun x hx => absurd hx (List.not_mem_nil x)⟩

/-! ## C5: group-id spaces are disjoint and id 0 is never assigned -/

/-- C5: along any sequence of memory/resource blocks loaded from the
empty library, every id minted for a memory block passes `ismemory`,
every id minted for a resource block passes `isresource`, no id is
minted for both kinds (disjoint spaces); every group id stored in the
alloc/dealloc/realloc tables is nonzero; a block one of whose dealloc
names is already known reuses that id and mints nothing; and a second
memory block listing the first block's dealloc name joins the first
family (same nonzero id). -/
theorem allocation_group_invariant :
    (∀ (blocks : List (BlockKind × List MemElem)) (i : Int),
        (i ∈ (runBlocksT blocks ((emptyLibrary, []), {})).2.mem →
          ismemory i = true) ∧
        (i ∈ (runBlocksT blocks ((emptyLibrary, []), {})).2.res →
          isresource i = true) ∧
        ¬(i ∈ (runBlocksT blocks ((emptyLibrary, []), {})).2.mem ∧
          i ∈ (runBlocksT blocks ((emptyLibrary, []), {})).2.res)) ∧
    (∀ (blocks : List (BlockKind × List MemElem)) (n : String) (af : AllocFunc),
        (alistLookup n (runBlocksT blocks ((emptyLibrary, []), {})).1.1.alloc
            = some af ∨
          alistLookup n (runBlocksT blocks ((emptyLibrary, []), {})).1.1.dealloc
            = some af ∨
          alistLookup n (runBlocksT blocks ((emptyLibrary, []), {})).1.1.realloc
            = some af) →
        af.groupId ≠ 0) ∧
    (∀ (kind : BlockKind) (elems : List MemElem)
        (st : LibraryData × List String) (tr : MintTrace),
        findReuseId st.1.dealloc elems ≠ 0 →
        (loadBlockT kind elems st tr).2 = tr ∧
          (loadBlockT kind elems st tr).1.1.allocId = st.1.allocId) ∧
    (getAllocId
        (loadBlock BlockKind.memory
          [MemElem.dealloc ["aFree"] 1, MemElem.alloc ["cAlloc"] 1]
          (loadBlock BlockKind.memory
            [MemElem.alloc ["aAlloc"] 1, MemElem.dealloc ["aFree"] 1]
            (emptyLibrary, []))).1
        { resolvedName := some "cAlloc" } 1
      = getAllocId
          (loadBlock BlockKind.memory
            [MemElem.dealloc ["aFree"] 1, MemElem.alloc ["cAlloc"] 1]
            (loadBlock BlockKind.memory
              [MemElem.alloc ["aAlloc"] 1, MemElem.dealloc ["aFree"] 1]
              (emptyLibrary, []))).1
          { resolvedName := some "cAlloc" } 1 ∧
      getAllocId
        (loadBlock BlockKind.memory
          [MemElem.dealloc ["aFree"] 1, MemElem.alloc ["cAlloc"] 1]
          (loadBlock BlockKind.memory
            [MemElem.alloc ["aAlloc"] 1, MemElem.dealloc ["aFree"] 1]
            (emptyLibrary, []))).1
        { resolvedName := some "cAlloc" } 1 = 2) := by
  refine ⟨?_, ?_, ?_, by decide, by decide⟩
  · intro blocks i
    have hinv := runBlocksT_inv blocks _ traceInv_init
    exact ⟨fun hm => hinv.1 i hm, fun hres => hinv.2.1 i hres,
      fun ⟨hm, hres⟩ =>
        ismemory_isresource_disjoint i (hinv.1 i hm) (hinv.2.1 i hres)⟩
  · intro blocks n af haf
    have hinv := runBlocksT_inv blocks _ traceInv_init
    have hmem : af.groupId ∈ (runBlocksT blocks ((emptyLibrary, []), {})).2.mem ∨
        af.groupId ∈ (runBlocksT blocks ((emptyLibrary, []), {})).2.res := by
      rcases haf with h | h | h
      · exact hinv.2.2.1 (n, af) (alistLookup_mem n af _ h)
      · exact hinv.2.2.2.1 (n, af) (alistLookup_mem n af _ h)
      · exact hinv.2.2.2.2 (n, af) (alistLookup_mem n af _ h)
    rcases hmem with h | h
    · exact ismemory_ne_zero _ (hinv.1 _ h)
    · exact isresource_ne_zero _ (hinv.2.1 _ h)
  · intro kind elems st tr hr
    unfold loadBlockT
    simp only [if_pos hr]
    exact ⟨by trivial, applyFold_allocId _ elems (st.1, st.2)⟩

/-- Witness for `allocation_group_invariant` at concrete blocks. -/
theorem allocation_group_invariant_witness :
    ismemory 2 = true ∧
      ({ groupId := 2, arg := 1 } : AllocFunc).groupId ≠ 0 ∧
      ((loadBlockT BlockKind.memory [MemElem.dealloc ["wFree"] 1]
          ({ dealloc := [("wFree", { groupId := 5, arg := 1 })] }, ([] : List String))
          {}).2 = ({} : MintTrace) ∧
        (loadBlockT BlockKind.memory [MemElem.dealloc ["wFree"] 1]
          ({ dealloc := [("wFree", { groupId := 5, arg := 1 })] }, ([] : List String))
          {}).1.1.allocId
          = ({ dealloc := [("wFree", { groupId := 5, arg := 1 })] } : LibraryData).allocId) :=
  ⟨(allocation_group_invariant.1
      [(BlockKind.memory, [MemElem.alloc ["m"] 1])] 2).1 (by decide),
   allocation_group_invariant.2.1 [(BlockKind.memory, [MemElem.alloc ["m"] 1])] "m"
     { groupId := 2, arg := 1 } (Or.inl (by decide)),
   allocation_group_invariant.2.2.1 BlockKind.memory [MemElem.dealloc ["wFree"] 1]
     ({ dealloc := [("wFree", { groupId := 5, arg := 1 })] }, []) {} (by decide)⟩

/-! ## C8: evaluation of stored validity expressions -/

set_option maxHeartbeats 1000000 in
/-- C8: `isIntArgValid` accepts exactly the values matched by some
segment of the stored expression: `"1:5"` accepts 1..5 inclusive and
rejects 0 and 6, `"0:,"` accepts any value ≥ 0 and rejects −1, `":10"`
accepts any value ≤ 10; an argument with no stored (or an empty)
expression is trivially valid. -/
theorem validity_expression_evaluation :
    (∀ v : Int, isIntArgValidExpr "1:5" v = true ↔ (1 ≤ v ∧ v ≤ 5)) ∧
    (∀ v : Int, isIntArgValidExpr "0:," v = true ↔ 0 ≤ v) ∧
    (∀ v : Int, isIntArgValidExpr ":10" v = true ↔ v ≤ 10) ∧
    (∀ (s : LibraryData) (c : CallSite) (argnr v : Int),
        getarg s c argnr = none → isIntArgValid s c argnr v = true) ∧
    (∀ (s : LibraryData) (c : CallSite) (argnr v : Int) (ac : ArgumentChecks),
        getarg s c argnr = some ac → ac.valid = "" →
        isIntArgValid s c argnr v = true) ∧
    (isIntArgValidExpr "1:5" 0 = false ∧ isIntArgValidExpr "1:5" 6 = false ∧
      isIntArgValidExpr "0:," (-1) = false ∧ isIntArgValidExpr ":10" 11 = false) := by
  have h15 : validTokens "1:5"
      = [VTok.num 1, VTok.colon, VTok.num 5, VTok.comma] := by decide
  have h0c : validTokens "0:,"
      = [VTok.num 0, VTok.colon, VTok.comma, VTok.comma] := by decide
  have h10 : validTokens ":10"
      = [VTok.colon, VTok.num 10, VTok.comma] := by decide
  refine ⟨?_, ?_, ?_, ?_, ?_, by decide, by decide, by decide, by decide⟩
  · intro v
    rw [isIntArgValidExpr, h15]
    simp only [validMatch, rangePat, openLowPat, openHighPat, Bool.or_eq_true,
      Bool.and_eq_true, beq_iff_eq, decide_eq_true_eq, Bool.false_and,
      Bool.false_or, Bool.or_false, Bool.true_and]
    omega
  · intro v
    rw [isIntArgValidExpr, h0c]
    simp only [validMatch, rangePat, openLowPat, openHighPat, Bool.or_eq_true,
      Bool.and_eq_true, beq_iff_eq, decide_eq_true_eq, Bool.false_and,
      Bool.false_or, Bool.or_false, Bool.true_and]
    omega
  · intro v
    rw [isIntArgValidExpr, h10]
    simp only [validMatch, rangePat, openLowPat, openHighPat, Bool.or_eq_true,
      Bool.and_eq_true, beq_iff_eq, decide_eq_true_eq, Bool.false_and,
      Bool.false_or, Bool.or_false, Bool.true_and]
    omega
  · intro s c argnr v h
    simp [isIntArgValid, h]
  · intro s c argnr v ac h h'
    simp [isIntArgValid, h, h']

/-- Witness for `validity_expression_evaluation` on the empty library. -/
theorem validity_expression_evaluation_witness :
    isIntArgValid emptyLibrary { resolvedName := some "f" } 1 42 = true ∧
      isIntArgValid
        { functions := [("g", { argumentChecks := [(1, {})] })] }
        { resolvedName := some "g", callargs := 1 } 1 7 = true :=
  ⟨validity_expression_evaluation.2.2.2.1 emptyLibrary
      { resolvedName := some "f" } 1 42 rfl,
   validity_expression_evaluation.2.2.2.2.1
      { functions := [("g", { argumentChecks := [(1, {})] })] }
      { resolvedName := some "g", callargs := 1 } 1 7 {} (by decide) rfl⟩

/-! ## C9: unknown elements are batched and reported once -/

/-- C9: an unrecognized top-level element never aborts the load — it is
accumulated into the (sorted) unknown-element set; a load that runs to
the end of the document returns `Ok` exactly when the set is empty and
otherwise a single `UnknownElement` error carrying the joined names;
concretely, a document with unknown elements `zzz` and `aaa` around an
`entrypoint` element reports `UnknownElement("aaa, zzz")` once while the
entrypoint stays committed. -/
theorem unknown_elements_batched :
    (∀ (n : String) (st : LibraryData × List String),
        loadElem (XElem.unknown n) st = (none, (st.1, setInsert n st.2))) ∧
    (∀ (d : XDoc) (s : LibraryData),
        d.rootName = "def" → 0 < d.format → d.format ≤ 2 →
        (loadElems d.elems (s, [])).1 = none →
        ((loadElems d.elems (s, [])).2.2 = [] →
            loadDoc d s = (⟨ErrorCode.OK, ""⟩, (loadElems d.elems (s, [])).2.1)) ∧
          ((loadElems d.elems (s, [])).2.2 ≠ [] →
            loadDoc d s = (⟨ErrorCode.UNKNOWN_ELEMENT,
                joinComma (loadElems d.elems (s, [])).2.2⟩,
              (loadElems d.elems (s, [])).2.1))) ∧
    ((loadDoc
        { elems := [XElem.unknown "zzz", XElem.entrypoint (some "ep"),
            XElem.unknown "aaa"] }
        emptyLibrary).1
      = ⟨ErrorCode.UNKNOWN_ELEMENT, "aaa, zzz"⟩ ∧
      isentrypoint
        (loadDoc
          { elems := [XElem.unknown "zzz", XElem.entrypoint (some "ep"),
              XElem.unknown "aaa"] }
          emptyLibrary).2 "ep" = true) := by
  refine ⟨fun n st => rfl, ?_, by decide, by decide⟩
  intro d s hroot hf1 hf2 hnone
  unfold loadDoc
  rw [if_neg (fun hh => hh hroot)]
  rw [if_neg (show ¬((decide (d.format > 2) || decide (d.format ≤ 0)) = true) by
    simp only [Bool.or_eq_true, decide_eq_true_eq, not_or]
    omega)]
  dsimp only
  rw [hnone]
  constructor
  · intro h
    rw [if_pos h]
  · intro h
    rw [if_neg h]

/-- Witness for `unknown_elements_batched` on a one-element document. -/
theorem unknown_elements_batched_witness :
    loadDoc { elems := [XElem.unknown "x"] } emptyLibrary
      = (⟨ErrorCode.UNKNOWN_ELEMENT,
          joinComma (loadElems [XElem.unknown "x"] (emptyLibrary, [])).2.2⟩,
        (loadElems [XElem.unknown "x"] (emptyLibrary, [])).2.1) :=
  (unknown_elements_batched.2.1 { elems := [XElem.unknown "x"] } emptyLibrary
    rfl (by decide) (by decide) rfl).2 (by decide)

/-! ## C10: entrypoints -/

theorem applyFold_entrypoints (gid : Int) :
    ∀ (elems : List MemElem) (st : LibraryData × List String),
      (elems.foldl (applyMemElem gid) st).1.entrypoints = st.1.entrypoints := by
  intro elems
  induction elems with
  | nil => intro st; rfl
  | cons e rest ih =>
      intro st
      rw [List.foldl_cons, ih]
      cases e with
      | alloc names arg => rfl
      | realloc names arg rarg => rfl
      | dealloc names arg => rfl
      | use names => exact (setUse_fold_carrier names st.1).2.2.2.2
      | unknown name => rfl

theorem loadBlock_entrypoints (kind : BlockKind) (elems : List MemElem)
    (st : LibraryData × List String) :
    (loadBlock kind elems st).1.entrypoints = st.1.entrypoints := by
  unfold loadBlock loadBlockT
  rw [applyFold_entrypoints]
  by_cases hr : findReuseId st.1.dealloc elems ≠ 0
  · rw [if_pos hr]
  · rw [if_neg hr]

/-- Completed element lists extend the entrypoint set by exactly the
names of their `entrypoint` elements. -/
theorem loadElems_entrypoints :
    ∀ (elems : List XElem) (st : LibraryData × List String),
      (loadElems elems st).1 = none →
      ∀ f, f ∈ (loadElems elems st).2.1.entrypoints ↔
        (f ∈ st.1.entrypoints ∨ f ∈ entrypointNames elems) := by
  intro elems
  induction elems with
  | nil =>
      intro st _ f
      simp [loadElems, entrypointNames]
  | cons e rest ih =>
      intro st hnone f
      cases e with
      | memory melems =>
          rw [loadElems] at hnone ⊢
          dsimp only [loadElem] at hnone ⊢
          rw [ih _ hnone f, loadBlock_entrypoints]
          simp [entrypointNames]
      | resource melems =>
          rw [loadElems] at hnone ⊢
          dsimp only [loadElem] at hnone ⊢
          rw [ih _ hnone f, loadBlock_entrypoints]
          simp [entrypointNames]
      | define name value =>
          cases name with
          | none =>
              rw [loadElems] at hnone
              dsimp only [loadElem] at hnone
              exact absurd hnone (by simp)
          | some n =>
              cases value with
              | none =>
                  rw [loadElems] at hnone
                  dsimp only [loadElem] at hnone
                  exact absurd hnone (by simp)
              | some v =>
                  rw [loadElems] at hnone ⊢
                  dsimp only [loadElem] at hnone ⊢
                  by_cases hc : st.1.defines.contains (n ++ " " ++ v) = true
                  · rw [if_pos hc] at hnone
                    exact absurd hnone (by simp)
                  · rw [if_neg hc] at hnone ⊢
                    rw [ih _ hnone f]
                    simp [entrypointNames]
      | entrypoint name =>
          cases name with
          | none =>
              rw [loadElems] at hnone
              dsimp only [loadElem] at hnone
              exact absurd hnone (by simp)
          | some n =>
              rw [loadElems] at hnone ⊢
              dsimp only [loadElem] at hnone ⊢
              by_cases hc : st.1.entrypoints.contains n = true
              · rw [if_pos hc] at hnone ⊢
                rw [ih _ hnone f]
                have hn : n ∈ st.1.entrypoints := List.mem_of_elem_eq_true hc
                simp only [entrypointNames, List.filterMap_cons]
                rw [List.mem_cons]
                constructor
                · rintro (h | h)
                  · exact Or.inl h
                  · exact Or.inr (Or.inr h)
                · rintro (h | rfl | h)
                  · exact Or.inl h
                  · exact Or.inl hn
                  · exact Or.inr h
              · rw [if_neg hc] at hnone ⊢
                rw [ih _ hnone f]
                simp only [entrypointNames, List.filterMap_cons]
                rw [List.mem_cons, setInsert_mem]
                tauto
      | unknown name =>
          rw [loadElems] at hnone ⊢
          dsimp only [loadElem] at hnone ⊢
          rw [ih _ hnone f]
          simp [entrypointNames]

/-- C10: `isentrypoint` is always true for `main`; for any other name
it is true exactly when the name is in the entrypoint set — empty before
any load, and after a completed load exactly the names registered by
`entrypoint` elements. -/
theorem isentrypoint_spec :
    (∀ s : LibraryData, isentrypoint s "main" = true) ∧
    (∀ (s : LibraryData) (f : String), f ≠ "main" →
        (isentrypoint s f = true ↔ f ∈ s.entrypoints)) ∧
    (∀ f : String, f ≠ "main" → isentrypoint emptyLibrary f = false) ∧
    (∀ (d : XDoc) (f : String), f ≠ "main" →
        (loadElems d.elems (emptyLibrary, [])).1 = none →
        (isentrypoint (loadElems d.elems (emptyLibrary, [])).2.1 f = true ↔
          f ∈ entrypointNames d.elems)) := by
  have h2 : ∀ (s : LibraryData) (f : String), f ≠ "main" →
      (isentrypoint s f = true ↔ f ∈ s.entrypoints) := by
    intro s f hf
    unfold isentrypoint
    rw [beq_eq_false_iff_ne.mpr hf]
    simp only [Bool.false_or]
    exact ⟨List.mem_of_elem_eq_true, List.elem_eq_true_of_mem⟩
  refine ⟨fun s => by simp [isentrypoint], h2, ?_, ?_⟩
  · intro f hf
    have := h2 emptyLibrary f hf
    simp only [emptyLibrary] at this
    cases hb : isentrypoint emptyLibrary f
    · rfl
    · exact absurd (this.mp hb) (by simp [emptyLibrary])
  · intro d f hf hnone
    rw [h2 _ f hf, loadElems_entrypoints d.elems _ hnone f]
    simp [emptyLibrary]

/-- Witness for `isentrypoint_spec` at a concrete document. -/
theorem isentrypoint_spec_witness :
    (isentrypoint emptyLibrary "rtos_task" = true ↔
      "rtos_task" ∈ emptyLibrary.entrypoints) ∧
    (isentrypoint
        (loadElems [XElem.entrypoint (some "rtos_task")] (emptyLibrary, [])).2.1
        "rtos_task" = true ↔
      "rtos_task" ∈ entrypointNames [XElem.entrypoint (some "rtos_task")]) :=
  ⟨isentrypoint_spec.2.1 emptyLibrary "rtos_task" (by decide),
   isentrypoint_spec.2.2.2 { elems := [XElem.entrypoint (some "rtos_task")] }
     "rtos_task" (by decide) rfl⟩

end Cppcheck

